import Mathlib

/-!
# Lock-free bounded queue and type-erased task: a sequential model

Shallow embedding of `abstract-task/abstract-task.hpp` (class `Task`, `CreateTask`) and of
`lock-free-bounded-queue/lock-free-bounded-queue.hpp` (class `LFQueue`).

Conventions of the embedding.

* A C++ object that a member function mutates is passed in and returned: a member function
  of `Task` that changes `*this` and `other` returns both new values.
* `void*` is `Option Nat`: `none` is `nullptr`, `some p` is the heap address `p`.
* `std::function` is `Option _`: `none` is the empty function, and a moved-from
  `std::function` is empty.
* The two thunks bound by the constructor of `Task` are captureless lambdas instantiated for
  `FunctionType`; a thunk is represented by the identifier of that type, its body by
  `cleanerBody` and `invokeBody`.
* `std::size_t` is `Nat` reduced modulo `2 ^ w` after every addition, `w` the width of
  `std::size_t`.
* Calls run one at a time, so atomics are plain values, memory orders are not represented and
  `compare_exchange_weak` does not fail spuriously.
-/

namespace abstract_task

/-- Exceptions that can leave a call. -/
inductive Exn where
  | bad_function_call
  | no_state
  | promise_already_satisfied
  | broken_promise
  | user (code : Nat)
  deriving DecidableEq, Repr

/-- How a call ends: it returns a value, an exception leaves it, or its behaviour is
undefined (a null, dangling or wrongly typed pointer was dereferenced). -/
inductive Outcome (α : Type) where
  | returned (a : α)
  | raised (e : Exn)
  | undefined
  deriving DecidableEq, Repr

/-- An object of a concrete `FunctionType` (the template parameter of the constructor of
`Task<std::int32_t()>`): the identifier of its type, its data, its call operator and its
destructor. `E` is whatever else the call operator can read and write. -/
structure Callable (E : Type) where
  typeId : Nat
  State : Type
  state : State
  call : State → E → Outcome Int × State × E
  destroy : State → E → E

/-- The heap of erased callables (`none` is a released cell) and the rest of the world. -/
structure World (E : Type) where
  heap : List (Option (Callable E))
  env : E

/-- The class `Task<std::int32_t()>`: `mInternalFunction`, `mCleaner`, `mInvoke`
(abstract-task.hpp, lines 94-97). -/
structure Task where
  mInternalFunction : Option Nat
  mCleaner : Option Nat
  mInvoke : Option Nat
  deriving DecidableEq, Repr

/-- Body of the cleanup lambda instantiated for the type `ty` (lines 45-49):
`delete reinterpret_cast<FunctionType*>(function)`. The result `none` is undefined
behaviour. -/
def cleanerBody {E : Type} (ty : Nat) (function : Option Nat) (wd : World E) :
    Option (World E) :=
  match function with
  | none => some wd
  | some p =>
    match wd.heap.getD p none with
    | some obj =>
      if obj.typeId = ty then
        some { heap := wd.heap.set p none, env := obj.destroy obj.state wd.env }
      else none
    | none => none

/-- Body of the invoke lambda instantiated for the type `ty` (lines 51-55):
`(*reinterpret_cast<FunctionType*>(function))()`. -/
def invokeBody {E : Type} (ty : Nat) (function : Option Nat) (wd : World E) :
    Outcome Int × World E :=
  match function with
  | none => (Outcome.undefined, wd)
  | some p =>
    match wd.heap.getD p none with
    | some obj =>
      if obj.typeId = ty then
        match obj.call obj.state wd.env with
        | (r, st, env) =>
          (r, { heap := wd.heap.set p (some { obj with state := st }), env := env })
      else (Outcome.undefined, wd)
    | none => (Outcome.undefined, wd)

/-- Move of a `std::function`: the target goes to the destination, the source is left
empty. Returns (destination, source). -/
def function_move (f : Option Nat) : Option Nat × Option Nat :=
  (f, none)

/-- Constructor `Task(FunctionType&& function)` (lines 41-56): the callable is moved into a
freshly allocated object and the two thunks are bound for its type. -/
def Task.ctor {E : Type} (function : Callable E) (wd : World E) : Task × World E :=
  ({ mInternalFunction := some wd.heap.length,
     mCleaner := some function.typeId,
     mInvoke := some function.typeId },
   { wd with heap := wd.heap ++ [some function] })

/-- Modelled from the spec: the default constructor of `Task`, which `Node() = default` and the
callers (`abstract_task_t task{}`) use and abstract-task.hpp does not list. The spec: a
default or moved-from instance has the state pointer "none" and a cleanup that does
nothing. -/
def Task.defaultCtor : Task :=
  { mInternalFunction := none, mCleaner := none, mInvoke := none }

/-- Destructor `~Task()` (lines 58-64). The result `none` is undefined behaviour. -/
def Task.dtor {E : Type} (self : Task) (wd : World E) : Option (World E) :=
  match self.mCleaner with
  | some ty => cleanerBody ty self.mInternalFunction wd
  | none => some wd

/-- Move constructor `Task(Task&& other)` (lines 67-74). Returns (the new task, `other`). -/
def Task.moveCtor (other : Task) : Task × Task :=
  let mInternalFunction := other.mInternalFunction
  let other1 := { other with mInternalFunction := none }
  let mCleaner := function_move other1.mCleaner
  let other2 := { other1 with mCleaner := mCleaner.2 }
  let mInvoke := function_move other2.mInvoke
  let other3 := { other2 with mInvoke := mInvoke.2 }
  ({ mInternalFunction := mInternalFunction, mCleaner := mCleaner.1, mInvoke := mInvoke.1 },
   other3)

/-- Move assignment `operator=(Task&& other)` (lines 77-86), for `other` an object distinct
from `*this`. What `*this` held is overwritten; no cleanup is called. Returns
(`*this`, `other`). -/
def Task.moveAssign (self other : Task) : Task × Task :=
  let self1 := { self with mInternalFunction := other.mInternalFunction }
  let other1 := { other with mInternalFunction := none }
  let mCleaner := function_move other1.mCleaner
  let self2 := { self1 with mCleaner := mCleaner.1 }
  let other2 := { other1 with mCleaner := mCleaner.2 }
  let mInvoke := function_move other2.mInvoke
  let self3 := { self2 with mInvoke := mInvoke.1 }
  let other3 := { other2 with mInvoke := mInvoke.2 }
  (self3, other3)

/-- Call operator `operator()()` (lines 88-91): `mInvoke(mInternalFunction)`; calling an
empty `std::function` throws `std::bad_function_call`. -/
def Task.invoke {E : Type} (self : Task) (wd : World E) : Outcome Int × World E :=
  match self.mInvoke with
  | some ty => invokeBody ty self.mInternalFunction wd
  | none => (Outcome.raised Exn.bad_function_call, wd)

/-- The shared states of the `std::packaged_task`/`std::future` pairs, by identifier:
`none` while not ready, then the value or the exception stored. -/
abbrev SharedStates (R : Type) := List (Option (Except Exn R))

/-- A `std::packaged_task<R(Args...)>`: the stored callable and the identifier of its shared
state, `none` when it has no shared state (moved from). -/
structure packaged_task (A R : Type) where
  fn : A → Except Exn R
  shared : Option Nat

/-- A `std::future<R>` referring to a shared state. -/
structure future where
  shared : Nat
  deriving DecidableEq, Repr

/-- Constructor of `std::packaged_task` from a callable: a new shared state, not ready. -/
def packaged_task.ctor {A R : Type} (function : A → Except Exn R) (env : SharedStates R) :
    packaged_task A R × SharedStates R :=
  ({ fn := function, shared := some env.length }, env ++ [none])

/-- Move of a `std::packaged_task`: the source is left without shared state. Returns
(destination, source). -/
def packaged_task.move {A R : Type} (pt : packaged_task A R) :
    packaged_task A R × packaged_task A R :=
  (pt, { pt with shared := none })

/-- Call operator of `std::packaged_task`: runs the stored callable and stores its value or
its exception in the shared state; throws `std::future_error` when there is no shared state
or the stored callable has already run. -/
def packaged_task.call {A R : Type} (pt : packaged_task A R) (args : A)
    (env : SharedStates R) : Outcome Unit × SharedStates R :=
  match pt.shared with
  | none => (Outcome.raised Exn.no_state, env)
  | some s =>
    match env.getD s none with
    | some _ => (Outcome.raised Exn.promise_already_satisfied, env)
    | none => (Outcome.returned (), env.set s (some (pt.fn args)))

/-- Destructor of `std::packaged_task`: a shared state that is not ready is abandoned with
`broken_promise`. -/
def packaged_task.dtor {A R : Type} (pt : packaged_task A R) (env : SharedStates R) :
    SharedStates R :=
  match pt.shared with
  | none => env
  | some s =>
    match env.getD s none with
    | some _ => env
    | none => env.set s (some (Except.error Exn.broken_promise))

/-- The call `get()` of `std::future`: the value or exception of the shared state; `none` when
the state is not ready (the call would block). -/
def future.get {R : Type} (f : future) (env : SharedStates R) : Option (Except Exn R) :=
  env.getD f.shared none

/-- The closure of the lambda of `CreateTask` (lines 108-116): captures `m_func`, `args`. -/
structure CreateTaskClosure (A R : Type) where
  m_func : packaged_task A R
  args : A

/-- Body of the lambda of `CreateTask` (lines 108-116): the inner lambda takes `m_func` by
move and calls it on the captured arguments; the status returned is 0. -/
def CreateTaskClosure.call {A R : Type} (c : CreateTaskClosure A R) (env : SharedStates R) :
    Outcome Int × CreateTaskClosure A R × SharedStates R :=
  let moved := packaged_task.move c.m_func
  let c1 := { c with m_func := moved.2 }
  match packaged_task.call moved.1 c1.args env with
  | (Outcome.returned _, env1) => (Outcome.returned 0, c1, packaged_task.dtor moved.1 env1)
  | (Outcome.raised e, env1) => (Outcome.raised e, c1, packaged_task.dtor moved.1 env1)
  | (Outcome.undefined, env1) => (Outcome.undefined, c1, env1)

/-- Destructor of the closure: destroys the captured `m_func`. -/
def CreateTaskClosure.destroy {A R : Type} (c : CreateTaskClosure A R) (env : SharedStates R) :
    SharedStates R :=
  packaged_task.dtor c.m_func env

/-- Function template `CreateTask(function, args...)` (lines 100-120). `closureType` identifies
the closure type of the lambda in this instantiation. Returns the pair (task, future) and the
world; `none` is undefined behaviour. -/
def CreateTask {A R : Type} (closureType : Nat) (function : A → Except Exn R) (args : A)
    (wd : World (SharedStates R)) : Option ((Task × future) × World (SharedStates R)) :=
  -- line 103: the local `packaged_task`
  let pt := packaged_task.ctor function wd.env
  -- line 104: `get_future()`
  match pt.1.shared with
  | none => none
  | some s =>
    let fut : future := { shared := s }
    -- line 108: the lambda captures `packaged_task` by move
    let captured := packaged_task.move pt.1
    -- lines 106-117: the constructor of `Task` moves the lambda into a new object
    let stored := packaged_task.move captured.1
    let closure : Callable (SharedStates R) :=
      { typeId := closureType,
        State := CreateTaskClosure A R,
        state := { m_func := stored.1, args := args },
        call := CreateTaskClosure.call,
        destroy := CreateTaskClosure.destroy }
    let made := Task.ctor closure { wd with env := pt.2 }
    -- the lambda, moved from, is destroyed
    let temporary : CreateTaskClosure A R := { m_func := stored.2, args := args }
    let wd1 : World (SharedStates R) :=
      { made.2 with env := CreateTaskClosure.destroy temporary made.2.env }
    -- line 119: `std::make_pair(std::move(abstract_task), std::move(future))`
    let ret := Task.moveCtor made.1
    -- the locals `abstract_task` and `packaged_task` are destroyed
    match Task.dtor ret.2 wd1 with
    | some wd2 =>
      some ((ret.1, fut), { wd2 with env := packaged_task.dtor captured.2 wd2.env })
    | none => none

/-- The function `add` of the unit test (abstract-task.pass.cpp, lines 28-31), on the pair of
its arguments, for a sum that fits `int`. -/
def add (args : Int × Int) : Except Exn Int :=
  Except.ok (args.1 + args.2)

/-- The lambda of the unit test `move_lambda` (abstract-task.pass.cpp, line 47), on the triple
of its arguments, for a sum that fits `int`. -/
def sum3 (args : Int × Int × Int) : Except Exn Int :=
  Except.ok (args.1 + args.2.1 + args.2.2)

/-- A callable that returns the non-zero status 7 and changes nothing. -/
def status7 : Callable Unit :=
  { typeId := 0, State := Unit, state := (),
    call := fun st env => (Outcome.returned 7, st, env),
    destroy := fun _ env => env }

/-- A chain of `n` move constructions starting from `t`: each task is move-constructed from the
one before. Returns (the last task, the tasks moved from, oldest first). -/
def Task.moveChain : Nat → Task → Task × List Task
  | 0, t => (t, [])
  | n + 1, t =>
    let m := Task.moveCtor t
    let r := Task.moveChain n m.1
    (r.1, m.2 :: r.2)

/-- The task objects of a list are destroyed one after the other. The result `none` is
undefined behaviour. -/
def Task.destroyAll {E : Type} : List Task → World E → Option (World E)
  | [], wd => some wd
  | t :: ts, wd =>
    match Task.dtor t wd with
    | some wd1 => Task.destroyAll ts wd1
    | none => none

/-- A callable whose destructor counts its runs in the world and whose call returns 0. -/
def counted : Callable Nat :=
  { typeId := 0, State := Unit, state := (),
    call := fun st env => (Outcome.returned 0, st, env),
    destroy := fun _ env => env + 1 }

end abstract_task

open abstract_task

/-- The slot type `LFQueue::Node` (lock-free-bounded-queue.hpp, lines 126-133). -/
structure Node where
  Task : abstract_task.Task
  Sequence : Nat
  deriving DecidableEq, Repr

/-- The class `LFQueue<Size>`: `mBufferMask`, `mHead`, `mTail`, `mBuffer` (lines 135-140). -/
structure LFQueue (Size : Nat) where
  mBufferMask : Nat
  mHead : Nat
  mTail : Nat
  mBuffer : List Node
  deriving DecidableEq, Repr

namespace LFQueue

/-- The call `std::has_single_bit(x)` of the second `static_assert` (line 37). -/
def has_single_bit (x : Nat) : Bool :=
  x != 0 && (x &&& (x - 1)) == 0

/-- A legal capacity: both `static_assert`s hold (lines 36-37) and `Size` is a value of
`std::size_t`. -/
def LegalSize (w Size : Nat) : Prop :=
  Size > 2 ∧ has_single_bit Size = true ∧ Size < 2 ^ w

instance (w Size : Nat) : Decidable (LegalSize w Size) :=
  inferInstanceAs (Decidable (Size > 2 ∧ has_single_bit Size = true ∧ Size < 2 ^ w))

/-- Element access `mBuffer[i]`. -/
def at_ {Size : Nat} (q : LFQueue Size) (i : Nat) : Node :=
  q.mBuffer.getD i { Task := Task.defaultCtor, Sequence := 0 }

/-- Constructor `LFQueue()` (lines 45-60). -/
def ctor (Size : Nat) : LFQueue Size :=
  { mBufferMask := Size - 1,
    mHead := 0,
    mTail := 0,
    mBuffer := (List.range Size).map (fun i => { Task := Task.defaultCtor, Sequence := i }) }

/-- Member `IsEmpty()` (lines 120-123). -/
def IsEmpty {Size : Nat} (q : LFQueue Size) : Bool :=
  q.mHead == q.mTail

/-- The call `compare_exchange_weak(expected, desired)` on an atomic holding `cur`, without
spurious failure. Returns (success, the atomic, `expected`). -/
def compare_exchange (cur expected desired : Nat) : Bool × Nat × Nat :=
  if cur = expected then (true, desired, expected) else (false, cur, cur)

/-- The loop `for (;;)` of `TryPush` (lines 68-87), entered with `old_tail_position`; `fuel`
bounds the number of iterations and `none` means it ran out. Returns (result, queue,
`task`). -/
def TryPushLoop (w : Nat) {Size : Nat} :
    Nat → LFQueue Size → Task → Nat → Option (Bool × LFQueue Size × Task)
  | 0, _, _, _ => none
  | fuel + 1, q, task, old_tail_position =>
    let node := old_tail_position &&& q.mBufferMask
    let old_sequence := (q.at_ node).Sequence
    if old_tail_position ≠ old_sequence then
      some (false, q, task)
    else
      match compare_exchange q.mTail old_tail_position ((old_tail_position + 1) % 2 ^ w) with
      | (true, tail, _) =>
        let moved := Task.moveAssign (q.at_ node).Task task
        some (true,
          { q with
            mTail := tail,
            mBuffer := q.mBuffer.set node
              { Task := moved.1, Sequence := (old_sequence + 1) % 2 ^ w } },
          moved.2)
      | (false, tail, expected) =>
        TryPushLoop w fuel { q with mTail := tail } task expected

/-- Member `TryPush(task)` (lines 64-88): the loop entered with the tail just loaded. One
iteration is enough then (`TryPushLoop_fuel`). Returns (result, queue, `task`). -/
def TryPush (w : Nat) {Size : Nat} (q : LFQueue Size) (task : Task) :
    Bool × LFQueue Size × Task :=
  (TryPushLoop w 1 q task q.mTail).getD (false, q, task)

/-- The loop `for (;;)` of `TryPop` (lines 94-117), entered with `old_head_position`. Returns
(result, queue, `task`). -/
def TryPopLoop (w : Nat) {Size : Nat} :
    Nat → LFQueue Size → Task → Nat → Option (Bool × LFQueue Size × Task)
  | 0, _, _, _ => none
  | fuel + 1, q, task, old_head_position =>
    let node := old_head_position &&& q.mBufferMask
    let old_sequence := (q.at_ node).Sequence
    if (old_head_position + 1) % 2 ^ w ≠ old_sequence then
      some (false, q, task)
    else if q.IsEmpty then
      some (false, q, task)
    else
      match compare_exchange q.mHead old_head_position ((old_head_position + 1) % 2 ^ w) with
      | (true, head, _) =>
        let moved := Task.moveAssign task (q.at_ node).Task
        some (true,
          { q with
            mHead := head,
            mBuffer := q.mBuffer.set node
              { Task := moved.2, Sequence := (old_head_position + Size) % 2 ^ w } },
          moved.1)
      | (false, head, expected) =>
        TryPopLoop w fuel { q with mHead := head } task expected

/-- Member `TryPop(task)` (lines 90-118): the loop entered with the head just loaded. Returns
(result, queue, `task`). -/
def TryPop (w : Nat) {Size : Nat} (q : LFQueue Size) (task : Task) :
    Bool × LFQueue Size × Task :=
  (TryPopLoop w 1 q task q.mHead).getD (false, q, task)

/-- The queue after a successful `TryPush` that reserved the position `mTail`. -/
def pushed (w : Nat) {Size : Nat} (q : LFQueue Size) (task : Task) : LFQueue Size :=
  { q with
    mTail := (q.mTail + 1) % 2 ^ w,
    mBuffer := q.mBuffer.set (q.mTail &&& q.mBufferMask)
      { Task := task, Sequence := (q.mTail + 1) % 2 ^ w } }

/-- The queue after a successful `TryPop` that reserved the position `mHead`. -/
def popped (w : Nat) {Size : Nat} (q : LFQueue Size) : LFQueue Size :=
  { q with
    mHead := (q.mHead + 1) % 2 ^ w,
    mBuffer := q.mBuffer.set (q.mHead &&& q.mBufferMask)
      { Task := Task.defaultCtor, Sequence := (q.mHead + Size) % 2 ^ w } }

/-- The two `static_assert`s of the class (lines 36-37): whether `LFQueue<Size>` compiles. -/
def static_asserts (Size : Nat) : Bool :=
  decide (Size > 2) && has_single_bit Size

/-- The loop of `TryPop` with the test of `IsEmpty()` (lines 103-106) removed. -/
def TryPopNoEmptyCheckLoop (w : Nat) {Size : Nat} :
    Nat → LFQueue Size → Task → Nat → Option (Bool × LFQueue Size × Task)
  | 0, _, _, _ => none
  | fuel + 1, q, task, old_head_position =>
    let node := old_head_position &&& q.mBufferMask
    let old_sequence := (q.at_ node).Sequence
    if (old_head_position + 1) % 2 ^ w ≠ old_sequence then
      some (false, q, task)
    else
      match compare_exchange q.mHead old_head_position ((old_head_position + 1) % 2 ^ w) with
      | (true, head, _) =>
        let moved := Task.moveAssign task (q.at_ node).Task
        some (true,
          { q with
            mHead := head,
            mBuffer := q.mBuffer.set node
              { Task := moved.2, Sequence := (old_head_position + Size) % 2 ^ w } },
          moved.1)
      | (false, head, expected) =>
        TryPopNoEmptyCheckLoop w fuel { q with mHead := head } task expected

/-- The member `TryPop` with the test of `IsEmpty()` (lines 103-106) removed. -/
def TryPopNoEmptyCheck (w : Nat) {Size : Nat} (q : LFQueue Size) (task : Task) :
    Bool × LFQueue Size × Task :=
  (TryPopNoEmptyCheckLoop w 1 q task q.mHead).getD (false, q, task)

end LFQueue

/-- One call made by a caller: `TryPush(task)` or `TryPop(task)` with the caller's task. -/
inductive Op where
  | push (task : Task)
  | pop (task : Task)
  deriving DecidableEq, Repr

/-- What a sequence of calls has done: the queue, the tasks offered to the calls of `TryPush`
that returned true, the tasks handed out by the calls of `TryPop` that returned true (both in
call order), and the results of all calls. -/
structure Trace (Size : Nat) where
  queue : LFQueue Size
  accepted : List Task
  delivered : List Task
  results : List Bool
  deriving DecidableEq, Repr

namespace Trace

/-- The trace of a freshly constructed queue. -/
def fresh (Size : Nat) : Trace Size :=
  { queue := LFQueue.ctor Size, accepted := [], delivered := [], results := [] }

/-- One call, run to completion. -/
def step (w : Nat) {Size : Nat} (s : Trace Size) : Op → Trace Size
  | Op.push task =>
    let r := LFQueue.TryPush w s.queue task
    { queue := r.2.1,
      accepted := if r.1 then s.accepted ++ [task] else s.accepted,
      delivered := s.delivered,
      results := s.results ++ [r.1] }
  | Op.pop task =>
    let r := LFQueue.TryPop w s.queue task
    { queue := r.2.1,
      accepted := s.accepted,
      delivered := if r.1 then s.delivered ++ [r.2.2] else s.delivered,
      results := s.results ++ [r.1] }

/-- A finite sequence of calls executed one at a time on a freshly constructed queue. -/
def run (w Size : Nat) (ops : List Op) : Trace Size :=
  ops.foldl (step w) (fresh Size)

/-- Invariant of a trace: `mHead` and `mTail` are the numbers of tasks handed out and accepted
(modulo `2 ^ w`), the tasks handed out are the first tasks accepted, every position from
`mHead` up to `mTail` has its slot readable and holding the task accepted at that position, and
every position from `mTail` up to `mHead + Size` has its slot writable. -/
structure Inv (w : Nat) {Size : Nat} (s : Trace Size) : Prop where
  mask : s.queue.mBufferMask = Size - 1
  len : s.queue.mBuffer.length = Size
  head : s.queue.mHead = s.delivered.length % 2 ^ w
  tail : s.queue.mTail = s.accepted.length % 2 ^ w
  fifo : s.delivered = s.accepted.take s.delivered.length
  le : s.delivered.length ≤ s.accepted.length
  cap : s.accepted.length ≤ s.delivered.length + Size
  readable : ∀ p, s.delivered.length ≤ p → p < s.accepted.length →
    s.queue.at_ (p % Size) =
      { Task := s.accepted.getD p Task.defaultCtor, Sequence := (p + 1) % 2 ^ w }
  writable : ∀ p, s.accepted.length ≤ p → p < s.delivered.length + Size →
    (s.queue.at_ (p % Size)).Sequence = p % 2 ^ w

end Trace

namespace LFQueue

/-- The tasks stored at the positions `mHead`, ..., `mTail - 1`, in this order. -/
def held (w : Nat) {Size : Nat} (q : LFQueue Size) : List Task :=
  (List.range ((q.mTail + 2 ^ w - q.mHead) % 2 ^ w)).map
    (fun i => (q.at_ (((q.mHead + i) % 2 ^ w) &&& q.mBufferMask)).Task)

end LFQueue

/-- The calls of `n` rounds, each a `TryPush(task)` followed by a `TryPop` into an empty
task. -/
def pushPopRounds (task : Task) : Nat → List Op
  | 0 => []
  | n + 1 => Op.push task :: Op.pop Task.defaultCtor :: pushPopRounds task n

/-- A run across the overflow of a 64-bit `std::size_t`: `2 ^ 64 - 1` rounds of one push and
one pop, then one more push. -/
def overflowRun : List Op :=
  pushPopRounds ⟨some 0, some 0, some 0⟩ 18446744073709551615
    ++ [Op.push ⟨some 0, some 0, some 0⟩]

namespace abstract_task

/-- The invariant of a task in a world: when the state pointer is not null it points to a live
object, and the cleanup thunk and the invoke thunk are both bound, to the thunks instantiated
for the type of that object. -/
def Task.Bound {E : Type} (wd : World E) (t : Task) : Prop :=
  ∀ p, t.mInternalFunction = some p →
    ∃ obj, wd.heap.getD p none = some obj ∧
      t.mCleaner = some obj.typeId ∧ t.mInvoke = some obj.typeId

/-- A callable that throws when called on its argument. -/
def thrower (_ : Unit) : Except Exn Int :=
  Except.error (Exn.user 1)

end abstract_task

namespace Trace

/-- The slots of the positions from the tail up to head + `Size`, that is outside
head, ..., tail - 1, store a task with a null state pointer. -/
def EmptyOutside {Size : Nat} (s : Trace Size) : Prop :=
  ∀ p, s.accepted.length ≤ p → p < s.delivered.length + Size →
    (s.queue.at_ (p % Size)).Task.mInternalFunction = none

end Trace

/-! ## Arithmetic of positions -/

namespace LFQueue

theorem has_single_bit_pow (x : Nat) : x ≠ 0 → x &&& (x - 1) = 0 → ∃ k, x = 2 ^ k := by
  induction x using Nat.strong_induction_on with
  | _ x ih =>
    intro hx hand
    have hdiv : x / 2 &&& (x - 1) / 2 = 0 := by
      rw [← Nat.and_div_two, hand]
    rcases Nat.mod_two_eq_zero_or_one x with h0 | h1
    · have h2 : (x - 1) / 2 = x / 2 - 1 := by omega
      rw [h2] at hdiv
      obtain ⟨k, hk⟩ := ih (x / 2) (by omega) (by omega) hdiv
      exact ⟨k + 1, by rw [pow_succ, ← hk]; omega⟩
    · have h2 : (x - 1) / 2 = x / 2 := by omega
      rw [h2, Nat.and_self] at hdiv
      exact ⟨0, by omega⟩

theorem LegalSize.pow {w Size : Nat} (h : LegalSize w Size) :
    ∃ k, Size = 2 ^ k ∧ 2 ≤ k ∧ k < w := by
  obtain ⟨h2, hb, hlt⟩ := h
  simp only [has_single_bit, Bool.and_eq_true, bne_iff_ne, ne_eq, beq_iff_eq] at hb
  obtain ⟨k, hk⟩ := has_single_bit_pow Size hb.1 hb.2
  subst hk
  refine ⟨k, rfl, ?_, ?_⟩
  · by_contra hc
    have : k = 0 ∨ k = 1 := by omega
    rcases this with h | h <;> subst h <;> simp at h2
  · exact (Nat.pow_lt_pow_iff_right (by norm_num)).1 hlt

theorem LegalSize.dvd {w Size : Nat} (h : LegalSize w Size) : Size ∣ 2 ^ w := by
  obtain ⟨k, hk, _, hkw⟩ := h.pow
  subst hk
  exact Nat.pow_dvd_pow 2 (Nat.le_of_lt hkw)

theorem LegalSize.mask {w Size : Nat} (h : LegalSize w Size) (x : Nat) :
    x &&& (Size - 1) = x % Size := by
  obtain ⟨k, hk, _, _⟩ := h.pow
  subst hk
  exact Nat.and_pow_two_sub_one_eq_mod x k

theorem LegalSize.mask_wrap {w Size : Nat} (h : LegalSize w Size) (x : Nat) :
    (x % 2 ^ w) &&& (Size - 1) = x % Size := by
  rw [h.mask, Nat.mod_mod_of_dvd x h.dvd]

theorem wrap_succ (M x : Nat) : (x % M + 1) % M = (x + 1) % M :=
  Nat.mod_add_mod x M 1

theorem wrap_add (M x y : Nat) : (x % M + y) % M = (x + y) % M :=
  Nat.mod_add_mod x M y

theorem wrap_ne_of_lt {M a b : Nat} (hab : a < b) (hb : b < a + M) : a % M ≠ b % M := by
  intro h
  have h1 : (b - a) % M = 0 := Nat.sub_mod_eq_zero_of_mod_eq h.symm
  have h2 : M ∣ b - a := Nat.dvd_of_mod_eq_zero h1
  have h3 : M ≤ b - a := Nat.le_of_dvd (by omega) h2
  omega

theorem wrap_ne {M a b : Nat} (hab : a ≠ b) (ha : a < b + M) (hb : b < a + M) :
    a % M ≠ b % M := by
  rcases Nat.lt_or_gt_of_ne hab with h | h
  · exact wrap_ne_of_lt h hb
  · exact fun e => wrap_ne_of_lt h ha e.symm

theorem wrap_sub {M d a : Nat} (hda : d ≤ a) (ha : a < d + M) :
    (a % M + M - d % M) % M = a - d := by
  have hM : 0 < M := by omega
  have hr : d % M < M := Nat.mod_lt d hM
  obtain ⟨n, rfl⟩ := Nat.exists_eq_add_of_le hda
  have hn : n < M := by omega
  have e : (d + n) % M = (d % M + n) % M := (Nat.mod_add_mod d M n).symm
  rw [e]
  by_cases hc : d % M + n < M
  · rw [Nat.mod_eq_of_lt hc]
    have : d % M + n + M - d % M = n + M := by omega
    rw [this, Nat.add_mod_right, Nat.mod_eq_of_lt hn]
    omega
  · have e2 : (d % M + n) % M = d % M + n - M := by
      rw [Nat.mod_eq_sub_mod (by omega)]
      exact Nat.mod_eq_of_lt (by omega)
    rw [e2]
    have : d % M + n - M + M - d % M = n := by omega
    rw [this, Nat.mod_eq_of_lt hn]
    omega

end LFQueue

/-! ## The two calls, unfolded -/

namespace abstract_task

theorem Task.moveAssign_eq (self other : Task) :
    Task.moveAssign self other = (other, Task.defaultCtor) := by
  cases other
  rfl

theorem Task.moveCtor_eq (other : Task) :
    Task.moveCtor other = (other, Task.defaultCtor) := by
  cases other
  rfl

end abstract_task

namespace LFQueue

theorem TryPushLoop_fuel (w : Nat) {Size : Nat} (fuel : Nat) (q : LFQueue Size) (task : Task) :
    TryPushLoop w (fuel + 1) q task q.mTail =
      if q.mTail = (q.at_ (q.mTail &&& q.mBufferMask)).Sequence then
        some (true, pushed w q task, Task.defaultCtor)
      else some (false, q, task) := by
  unfold TryPushLoop
  by_cases h : q.mTail = (q.at_ (q.mTail &&& q.mBufferMask)).Sequence
  · rw [if_pos h, if_neg (not_not.2 h)]
    simp only [compare_exchange, if_true, Task.moveAssign_eq, pushed]
    rw [← h]
  · rw [if_neg h, if_pos h]

theorem TryPush_eq (w : Nat) {Size : Nat} (q : LFQueue Size) (task : Task) :
    TryPush w q task =
      if q.mTail = (q.at_ (q.mTail &&& q.mBufferMask)).Sequence then
        (true, pushed w q task, Task.defaultCtor)
      else (false, q, task) := by
  unfold TryPush
  rw [TryPushLoop_fuel]
  split <;> rfl

theorem TryPopLoop_fuel (w : Nat) {Size : Nat} (fuel : Nat) (q : LFQueue Size) (task : Task) :
    TryPopLoop w (fuel + 1) q task q.mHead =
      if (q.mHead + 1) % 2 ^ w = (q.at_ (q.mHead &&& q.mBufferMask)).Sequence
          ∧ q.mHead ≠ q.mTail then
        some (true, popped w q, (q.at_ (q.mHead &&& q.mBufferMask)).Task)
      else some (false, q, task) := by
  unfold TryPopLoop
  by_cases h : (q.mHead + 1) % 2 ^ w = (q.at_ (q.mHead &&& q.mBufferMask)).Sequence
  · by_cases h2 : q.mHead = q.mTail
    · simp [h, h2, IsEmpty]
    · simp [h, h2, IsEmpty, compare_exchange, Task.moveAssign_eq, popped]
  · simp [h]

theorem TryPop_eq (w : Nat) {Size : Nat} (q : LFQueue Size) (task : Task) :
    TryPop w q task =
      if (q.mHead + 1) % 2 ^ w = (q.at_ (q.mHead &&& q.mBufferMask)).Sequence
          ∧ q.mHead ≠ q.mTail then
        (true, popped w q, (q.at_ (q.mHead &&& q.mBufferMask)).Task)
      else (false, q, task) := by
  unfold TryPop
  rw [TryPopLoop_fuel]
  split <;> rfl

end LFQueue

/-! ## The invariant of sequential execution -/

namespace LFQueue

theorem getD_set_self {α : Type} (l : List α) (i : Nat) (v d : α) (h : i < l.length) :
    (l.set i v).getD i d = v := by
  simp [List.getD_eq_getElem?_getD, List.getElem?_set, h]

theorem getD_set_ne {α : Type} (l : List α) (i j : Nat) (v d : α) (h : i ≠ j) :
    (l.set i v).getD j d = l.getD j d := by
  simp [List.getD_eq_getElem?_getD, List.getElem?_set, h]

theorem ctor_at (Size p : Nat) (h : p < Size) :
    (ctor Size).at_ p = { Task := Task.defaultCtor, Sequence := p } := by
  simp [ctor, at_, List.getD_eq_getElem?_getD, h]

end LFQueue

namespace Trace

open LFQueue

theorem inv_fresh {w Size : Nat} (h : LegalSize w Size) : Inv w (fresh Size) := by
  refine ⟨rfl, by simp [fresh, ctor], rfl, rfl, rfl, Nat.le_refl _, by simp [fresh], ?_, ?_⟩
  · intro p h1 h2
    simp [fresh] at h2
  · intro p _ h2
    simp only [fresh, List.length_nil, Nat.zero_add] at h2
    rw [Nat.mod_eq_of_lt h2]
    show ((ctor Size).at_ p).Sequence = p % 2 ^ w
    rw [ctor_at Size p h2]
    exact (Nat.mod_eq_of_lt (Nat.lt_trans h2 h.2.2)).symm

theorem push_ok_iff {w Size : Nat} (h : LegalSize w Size) {s : Trace Size} (hs : Inv w s) :
    s.queue.mTail = (s.queue.at_ (s.queue.mTail &&& s.queue.mBufferMask)).Sequence ↔
      s.accepted.length < s.delivered.length + Size := by
  have hSize : 2 < Size := h.1
  have hM : Size < 2 ^ w := h.2.2
  rw [hs.mask, hs.tail, h.mask_wrap]
  constructor
  · intro e
    by_contra hc
    have hfull : s.accepted.length = s.delivered.length + Size := by
      have := hs.cap
      omega
    have hr := hs.readable s.delivered.length (Nat.le_refl _) (by omega)
    rw [hfull, Nat.add_mod_right, hr] at e
    exact wrap_ne_of_lt (show s.delivered.length + 1 < s.delivered.length + Size by omega)
      (by omega) e.symm
  · intro hlt
    exact (hs.writable s.accepted.length (Nat.le_refl _) hlt).symm

theorem pop_ok_iff {w Size : Nat} (h : LegalSize w Size) {s : Trace Size} (hs : Inv w s) :
    ((s.queue.mHead + 1) % 2 ^ w =
        (s.queue.at_ (s.queue.mHead &&& s.queue.mBufferMask)).Sequence
      ∧ s.queue.mHead ≠ s.queue.mTail) ↔ s.delivered.length < s.accepted.length := by
  have hSize : 2 < Size := h.1
  have hM : Size < 2 ^ w := h.2.2
  rw [hs.mask, hs.head, hs.tail, h.mask_wrap, wrap_succ]
  constructor
  · rintro ⟨_, hne⟩
    by_contra hc
    have : s.delivered.length = s.accepted.length := by
      have := hs.le
      omega
    exact hne (by rw [this])
  · intro hlt
    refine ⟨?_, wrap_ne_of_lt hlt (by have := hs.cap; omega)⟩
    rw [hs.readable s.delivered.length (Nat.le_refl _) hlt]

end Trace

namespace Trace

open LFQueue

theorem step_push (w : Nat) {Size : Nat} (s : Trace Size) (task : Task) :
    step w s (Op.push task) =
      if s.queue.mTail = (s.queue.at_ (s.queue.mTail &&& s.queue.mBufferMask)).Sequence then
        { queue := pushed w s.queue task, accepted := s.accepted ++ [task],
          delivered := s.delivered, results := s.results ++ [true] }
      else
        { queue := s.queue, accepted := s.accepted,
          delivered := s.delivered, results := s.results ++ [false] } := by
  simp only [step, TryPush_eq]
  split <;> simp

theorem step_pop (w : Nat) {Size : Nat} (s : Trace Size) (task : Task) :
    step w s (Op.pop task) =
      if (s.queue.mHead + 1) % 2 ^ w =
            (s.queue.at_ (s.queue.mHead &&& s.queue.mBufferMask)).Sequence
          ∧ s.queue.mHead ≠ s.queue.mTail then
        { queue := popped w s.queue, accepted := s.accepted,
          delivered := s.delivered ++ [(s.queue.at_ (s.queue.mHead &&& s.queue.mBufferMask)).Task],
          results := s.results ++ [true] }
      else
        { queue := s.queue, accepted := s.accepted,
          delivered := s.delivered, results := s.results ++ [false] } := by
  simp only [step, TryPop_eq]
  split <;> simp

theorem inv_push {w Size : Nat} (h : LegalSize w Size) {s : Trace Size} (hs : Inv w s)
    (task : Task) (rs : List Bool) (hlt : s.accepted.length < s.delivered.length + Size) :
    Inv w { queue := pushed w s.queue task, accepted := s.accepted ++ [task],
            delivered := s.delivered, results := rs } := by
  have hSize : 2 < Size := h.1
  have hidx : s.queue.mTail &&& s.queue.mBufferMask = s.accepted.length % Size := by
    rw [hs.mask, hs.tail, h.mask_wrap]
  have hin : s.accepted.length % Size < s.queue.mBuffer.length := by
    rw [hs.len]
    exact Nat.mod_lt _ (by omega)
  have hle := hs.le
  refine ⟨hs.mask, ?_, hs.head, ?_, ?_, ?_, ?_, ?_, ?_⟩
  · simp [pushed, hs.len]
  · simp only [pushed, List.length_append, List.length_singleton]
    rw [hs.tail, wrap_succ]
  · show s.delivered = (s.accepted ++ [task]).take s.delivered.length
    rw [List.take_append_of_le_length hle]
    exact hs.fifo
  · simp only [List.length_append, List.length_singleton]
    omega
  · simp only [List.length_append, List.length_singleton]
    omega
  · intro p hp1 hp2
    dsimp only at hp1 hp2
    simp only [List.length_append, List.length_singleton] at hp2
    simp only [pushed, at_, hidx]
    by_cases hpa : p = s.accepted.length
    · subst hpa
      rw [getD_set_self _ _ _ _ hin, hs.tail, wrap_succ]
      simp [List.getD_eq_getElem?_getD]
    · have hne : s.accepted.length % Size ≠ p % Size :=
        wrap_ne (Ne.symm hpa) (by omega) (by omega)
      rw [getD_set_ne _ _ _ _ _ hne]
      have := hs.readable p hp1 (by omega)
      simp only [at_] at this
      rw [this]
      have hp3 : p < s.accepted.length := by omega
      simp [List.getD_eq_getElem?_getD, List.getElem?_append_left hp3]
  · intro p hp1 hp2
    dsimp only at hp1 hp2
    simp only [List.length_append, List.length_singleton] at hp1
    simp only [pushed, at_, hidx]
    have hne : s.accepted.length % Size ≠ p % Size :=
      wrap_ne (by omega) (by omega) (by omega)
    rw [getD_set_ne _ _ _ _ _ hne]
    exact hs.writable p (by omega) hp2

theorem inv_pop {w Size : Nat} (h : LegalSize w Size) {s : Trace Size} (hs : Inv w s)
    (rs : List Bool) (hlt : s.delivered.length < s.accepted.length) :
    Inv w { queue := popped w s.queue, accepted := s.accepted,
            delivered := s.delivered ++
              [(s.queue.at_ (s.queue.mHead &&& s.queue.mBufferMask)).Task],
            results := rs } := by
  have hSize : 2 < Size := h.1
  have hidx : s.queue.mHead &&& s.queue.mBufferMask = s.delivered.length % Size := by
    rw [hs.mask, hs.head, h.mask_wrap]
  have hin : s.delivered.length % Size < s.queue.mBuffer.length := by
    rw [hs.len]
    exact Nat.mod_lt _ (by omega)
  have hcap := hs.cap
  have hrd := hs.readable s.delivered.length (Nat.le_refl _) hlt
  refine ⟨hs.mask, ?_, ?_, hs.tail, ?_, ?_, ?_, ?_, ?_⟩
  · simp [popped, hs.len]
  · simp only [popped, List.length_append, List.length_singleton]
    rw [hs.head, wrap_succ]
  · simp only [List.length_append, List.length_singleton, hidx, hrd]
    rw [List.take_succ, ← hs.fifo]
    simp [List.getD_eq_getElem?_getD, List.getElem?_eq_getElem hlt]
  · simp only [List.length_append, List.length_singleton]
    omega
  · simp only [List.length_append, List.length_singleton]
    omega
  · intro p hp1 hp2
    dsimp only at hp1 hp2
    simp only [List.length_append, List.length_singleton] at hp1
    simp only [popped, at_, hidx]
    have hne : s.delivered.length % Size ≠ p % Size :=
      wrap_ne (by omega) (by omega) (by omega)
    rw [getD_set_ne _ _ _ _ _ hne]
    exact hs.readable p (by omega) hp2
  · intro p hp1 hp2
    dsimp only at hp1 hp2
    simp only [List.length_append, List.length_singleton] at hp2
    simp only [popped, at_, hidx]
    by_cases hpa : p = s.delivered.length + Size
    · subst hpa
      rw [Nat.add_mod_right, getD_set_self _ _ _ _ hin, hs.head, wrap_add]
    · have hne : s.delivered.length % Size ≠ p % Size :=
        wrap_ne (by omega) (by omega) (by omega)
      rw [getD_set_ne _ _ _ _ _ hne]
      exact hs.writable p hp1 (by omega)

theorem inv_step {w Size : Nat} (h : LegalSize w Size) {s : Trace Size} (hs : Inv w s)
    (op : Op) : Inv w (step w s op) := by
  cases op with
  | push task =>
    rw [step_push]
    split
    · next hc => exact inv_push h hs task _ ((push_ok_iff h hs).1 hc)
    · exact ⟨hs.mask, hs.len, hs.head, hs.tail, hs.fifo, hs.le, hs.cap, hs.readable,
        hs.writable⟩
  | pop task =>
    rw [step_pop]
    split
    · next hc => exact inv_pop h hs _ ((pop_ok_iff h hs).1 hc)
    · exact ⟨hs.mask, hs.len, hs.head, hs.tail, hs.fifo, hs.le, hs.cap, hs.readable,
        hs.writable⟩

theorem inv_foldl {w Size : Nat} (h : LegalSize w Size) (ops : List Op) :
    ∀ s : Trace Size, Inv w s → Inv w (ops.foldl (step w) s) := by
  induction ops with
  | nil => intro s hs; exact hs
  | cons op ops ih => intro s hs; exact ih _ (inv_step h hs op)

theorem inv_run {w Size : Nat} (h : LegalSize w Size) (ops : List Op) :
    Inv w (run w Size ops) :=
  inv_foldl h ops _ (inv_fresh h)

end Trace

namespace Trace

open LFQueue

theorem held_eq {w Size : Nat} (h : LegalSize w Size) {s : Trace Size} (hs : Inv w s) :
    held w s.queue = s.accepted.drop s.delivered.length := by
  have hM : Size < 2 ^ w := h.2.2
  have hle := hs.le
  have hcap := hs.cap
  have hn : (s.queue.mTail + 2 ^ w - s.queue.mHead) % 2 ^ w
      = s.accepted.length - s.delivered.length := by
    rw [hs.head, hs.tail]
    exact wrap_sub hle (by omega)
  apply List.ext_getElem
  · simp [held, hn]
  · intro i h1 h2
    simp only [held, List.length_map, List.length_range, hn] at h1
    simp only [held, List.getElem_map, List.getElem_range, List.getElem_drop]
    rw [hs.mask, hs.head, wrap_add, h.mask_wrap,
      hs.readable (s.delivered.length + i) (by omega) (by omega)]
    simp [List.getD_eq_getElem?_getD, List.getElem?_eq_getElem (show s.delivered.length + i < s.accepted.length by omega)]

theorem run_append (w Size : Nat) (ops more : List Op) :
    run w Size (ops ++ more) = more.foldl (step w) (run w Size ops) := by
  simp [run, List.foldl_append]

end Trace

namespace Trace

open LFQueue

theorem pushes_delivered (w : Nat) {Size : Nat} (ts : List Task) :
    ∀ s : Trace Size, ((ts.map Op.push).foldl (step w) s).delivered = s.delivered := by
  induction ts with
  | nil => intro s; rfl
  | cons t ts ih =>
    intro s
    simp only [List.map_cons, List.foldl_cons]
    rw [ih, step_push]
    split <;> rfl

theorem pushes_room {w Size : Nat} (h : LegalSize w Size) (ts : List Task) :
    ∀ s : Trace Size, Inv w s → s.accepted.length + ts.length ≤ s.delivered.length + Size →
      ((ts.map Op.push).foldl (step w) s).accepted = s.accepted ++ ts ∧
      ((ts.map Op.push).foldl (step w) s).results
        = s.results ++ List.replicate ts.length true := by
  induction ts with
  | nil => intro s _ _; simp
  | cons t ts ih =>
    intro s hs hroom
    simp only [List.length_cons] at hroom
    have hlt : s.accepted.length < s.delivered.length + Size := by omega
    have hstep : step w s (Op.push t) =
        { queue := pushed w s.queue t, accepted := s.accepted ++ [t],
          delivered := s.delivered, results := s.results ++ [true] } := by
      rw [step_push, if_pos ((push_ok_iff h hs).2 hlt)]
    have hs1 := inv_step h hs (Op.push t)
    simp only [List.map_cons, List.foldl_cons]
    obtain ⟨h1, h2⟩ := ih (step w s (Op.push t)) hs1 (by
      rw [hstep]
      simp only [List.length_append, List.length_singleton]
      omega)
    rw [h1, h2, hstep]
    simp [List.replicate_succ]

theorem pushes_full {w Size : Nat} (h : LegalSize w Size) (ts : List Task) :
    ∀ s : Trace Size, Inv w s → s.accepted.length = s.delivered.length + Size →
      (ts.map Op.push).foldl (step w) s =
        { s with results := s.results ++ List.replicate ts.length false } := by
  induction ts with
  | nil => intro s _ _; simp
  | cons t ts ih =>
    intro s hs hfull
    have hno : ¬ s.queue.mTail
        = (s.queue.at_ (s.queue.mTail &&& s.queue.mBufferMask)).Sequence := by
      intro hc
      have := (push_ok_iff h hs).1 hc
      omega
    have hstep : step w s (Op.push t) =
        { queue := s.queue, accepted := s.accepted,
          delivered := s.delivered, results := s.results ++ [false] } := by
      rw [step_push, if_neg hno]
    have hs1 := inv_step h hs (Op.push t)
    simp only [List.map_cons, List.foldl_cons]
    rw [ih (step w s (Op.push t)) hs1 (by rw [hstep]; exact hfull), hstep]
    simp [List.replicate_succ]

end Trace

namespace Trace

open LFQueue

theorem empty_iff {w Size : Nat} (h : LegalSize w Size) {s : Trace Size} (hs : Inv w s) :
    s.queue.mHead = s.queue.mTail ↔ s.delivered.length = s.accepted.length := by
  have hM : Size < 2 ^ w := h.2.2
  have hle := hs.le
  have hcap := hs.cap
  rw [hs.head, hs.tail]
  constructor
  · intro e
    by_contra hc
    exact wrap_ne_of_lt (show s.delivered.length < s.accepted.length by omega) (by omega) e
  · intro e
    rw [e]

theorem push_result {w Size : Nat} (h : LegalSize w Size) {s : Trace Size} (hs : Inv w s)
    (task : Task) :
    (TryPush w s.queue task).1 = true ↔ s.accepted.length < s.delivered.length + Size := by
  rw [TryPush_eq, ← push_ok_iff h hs]
  split
  · next hc => exact ⟨fun _ => hc, fun _ => rfl⟩
  · next hc => exact ⟨fun e => Bool.noConfusion e, fun e => absurd e hc⟩

theorem pop_result {w Size : Nat} (h : LegalSize w Size) {s : Trace Size} (hs : Inv w s)
    (task : Task) :
    (TryPop w s.queue task).1 = true ↔ s.delivered.length < s.accepted.length := by
  rw [TryPop_eq, ← pop_ok_iff h hs]
  split
  · next hc => exact ⟨fun _ => hc, fun _ => rfl⟩
  · next hc => exact ⟨fun e => Bool.noConfusion e, fun e => absurd e hc⟩

end Trace

namespace Trace

open LFQueue

theorem pop_task {w Size : Nat} (h : LegalSize w Size) {s : Trace Size} (hs : Inv w s)
    (task : Task) (hlt : s.delivered.length < s.accepted.length) :
    (TryPop w s.queue task).2.2 = s.accepted.getD s.delivered.length Task.defaultCtor := by
  rw [TryPop_eq, if_pos ((pop_ok_iff h hs).2 hlt)]
  show (s.queue.at_ (s.queue.mHead &&& s.queue.mBufferMask)).Task = _
  rw [hs.mask, hs.head, h.mask_wrap, hs.readable _ (Nat.le_refl _) hlt]

theorem step_push_ok {w Size : Nat} (h : LegalSize w Size) {s : Trace Size} (hs : Inv w s)
    (task : Task) (hlt : s.accepted.length < s.delivered.length + Size) :
    step w s (Op.push task) =
      { queue := (TryPush w s.queue task).2.1, accepted := s.accepted ++ [task],
        delivered := s.delivered, results := s.results ++ [true] } := by
  have hr := (push_result h hs task).2 hlt
  simp [step, hr]

theorem delivered_eq_accepted {w Size : Nat} (h : LegalSize w Size) (ops : List Op) (i : Nat)
    (hi : i < (run w Size ops).delivered.length) :
    (run w Size ops).delivered[i]? = (run w Size ops).accepted[i]? := by
  have hs := inv_run h ops
  conv => lhs; rw [hs.fifo]
  rw [List.getElem?_take, if_pos hi]

end Trace

/-! ## Capacities and slot indices -/

namespace LFQueue

theorem has_single_bit_iff (x : Nat) : has_single_bit x = true ↔ ∃ k, x = 2 ^ k := by
  simp only [has_single_bit, Bool.and_eq_true, bne_iff_ne, ne_eq, beq_iff_eq]
  constructor
  · rintro ⟨h0, h1⟩
    exact has_single_bit_pow x h0 h1
  · rintro ⟨k, rfl⟩
    refine ⟨Nat.pos_iff_ne_zero.1 (Nat.pow_pos (by norm_num)), ?_⟩
    rw [Nat.and_pow_two_sub_one_eq_mod, Nat.mod_self]

theorem static_asserts_iff (Size : Nat) :
    static_asserts Size = true ↔ ∃ k, 2 ≤ k ∧ Size = 2 ^ k := by
  simp only [static_asserts, Bool.and_eq_true, decide_eq_true_eq, has_single_bit_iff]
  constructor
  · rintro ⟨h2, k, rfl⟩
    refine ⟨k, ?_, rfl⟩
    by_contra hc
    have : k = 0 ∨ k = 1 := by omega
    rcases this with h | h <;> subst h <;> simp at h2
  · rintro ⟨k, hk, rfl⟩
    refine ⟨?_, k, rfl⟩
    calc 2 < 2 ^ 2 := by norm_num
      _ ≤ 2 ^ k := Nat.pow_le_pow_right (by norm_num) hk

theorem one_bit_iff (x : Nat) :
    (∃ k, x = 2 ^ k) ↔ ∃ k, ∀ i, x.testBit i = decide (k = i) := by
  constructor
  · rintro ⟨k, rfl⟩
    exact ⟨k, fun i => Nat.testBit_two_pow⟩
  · rintro ⟨k, hk⟩
    refine ⟨k, Nat.eq_of_testBit_eq fun i => ?_⟩
    rw [hk i, Nat.testBit_two_pow]

theorem LegalSize.index_succ {w Size : Nat} (h : LegalSize w Size) (p : Nat) :
    ((p + 1) % 2 ^ w) &&& (Size - 1) = ((p &&& (Size - 1)) + 1) % Size := by
  rw [h.mask_wrap, h.mask, Nat.mod_add_mod]

theorem LegalSize.index_add_size {w Size : Nat} (h : LegalSize w Size) (p : Nat) :
    ((p + Size) % 2 ^ w) &&& (Size - 1) = p &&& (Size - 1) := by
  rw [h.mask_wrap, h.mask, Nat.add_mod_right]

end LFQueue

/-! ## Release of the erased state -/

namespace abstract_task

theorem Task.moveChain_eq (n : Nat) :
    ∀ t : Task, Task.moveChain n t = (t, List.replicate n Task.defaultCtor) := by
  induction n with
  | zero => intro t; rfl
  | succ n ih =>
    intro t
    simp only [Task.moveChain, Task.moveCtor_eq, ih, List.replicate_succ]

theorem Task.dtor_default {E : Type} (wd : World E) :
    Task.dtor Task.defaultCtor wd = some wd := rfl

theorem Task.dtor_ctor {E : Type} (f : Callable E) (wd : World E) :
    Task.dtor (Task.ctor f wd).1 (Task.ctor f wd).2
      = some { heap := (Task.ctor f wd).2.heap.set wd.heap.length none,
               env := f.destroy f.state wd.env } := by
  simp [Task.dtor, Task.ctor, cleanerBody, List.getD_eq_getElem?_getD]

theorem Task.destroyAll_default {E : Type} (l : List Task)
    (hl : ∀ t ∈ l, t = Task.defaultCtor) (wd : World E) :
    Task.destroyAll l wd = some wd := by
  induction l with
  | nil => rfl
  | cons t ts ih =>
    have ht : t = Task.defaultCtor := hl t (List.mem_cons_self _ _)
    subst ht
    simp only [Task.destroyAll, Task.dtor_default]
    exact ih fun x hx => hl x (List.mem_cons_of_mem _ hx)

theorem Task.destroyAll_append {E : Type} (l1 l2 : List Task) (wd : World E) :
    Task.destroyAll (l1 ++ l2) wd = (Task.destroyAll l1 wd).bind (Task.destroyAll l2) := by
  induction l1 generalizing wd with
  | nil => rfl
  | cons t ts ih =>
    simp only [List.cons_append, Task.destroyAll]
    cases Task.dtor t wd with
    | none => rfl
    | some wd1 => exact ih wd1

theorem Task.destroyAll_one {E : Type} (t : Task) (n : Nat) (order : List Task)
    (horder : order.Perm (t :: List.replicate n Task.defaultCtor)) (wd : World E) :
    Task.destroyAll order wd = Task.dtor t wd := by
  have hmem : t ∈ order := horder.symm.subset (List.mem_cons_self _ _)
  obtain ⟨l1, l2, rfl⟩ := List.append_of_mem hmem
  have hrest : (l1 ++ l2).Perm (List.replicate n Task.defaultCtor) :=
    (List.perm_middle.symm.trans horder).cons_inv
  have hall : ∀ x ∈ l1 ++ l2, x = Task.defaultCtor :=
    fun x hx => List.eq_of_mem_replicate (hrest.subset hx)
  rw [Task.destroyAll_append,
    Task.destroyAll_default l1 (fun x hx => hall x (List.mem_append_left _ hx))]
  simp only [Option.bind, Task.destroyAll]
  cases Task.dtor t wd with
  | none => rfl
  | some wd1 =>
    exact Task.destroyAll_default l2 (fun x hx => hall x (List.mem_append_right _ hx)) wd1

end abstract_task

/-! ## The pop without the emptiness test -/

namespace LFQueue

theorem TryPopNoEmptyCheckLoop_fuel (w : Nat) {Size : Nat} (fuel : Nat) (q : LFQueue Size)
    (task : Task) :
    TryPopNoEmptyCheckLoop w (fuel + 1) q task q.mHead =
      if (q.mHead + 1) % 2 ^ w = (q.at_ (q.mHead &&& q.mBufferMask)).Sequence then
        some (true, popped w q, (q.at_ (q.mHead &&& q.mBufferMask)).Task)
      else some (false, q, task) := by
  unfold TryPopNoEmptyCheckLoop
  by_cases h : (q.mHead + 1) % 2 ^ w = (q.at_ (q.mHead &&& q.mBufferMask)).Sequence
  · simp [h, compare_exchange, Task.moveAssign_eq, popped]
  · simp [h]

theorem TryPopNoEmptyCheck_eq (w : Nat) {Size : Nat} (q : LFQueue Size) (task : Task) :
    TryPopNoEmptyCheck w q task =
      if (q.mHead + 1) % 2 ^ w = (q.at_ (q.mHead &&& q.mBufferMask)).Sequence then
        (true, popped w q, (q.at_ (q.mHead &&& q.mBufferMask)).Task)
      else (false, q, task) := by
  unfold TryPopNoEmptyCheck
  rw [TryPopNoEmptyCheckLoop_fuel]
  split <;> rfl

end LFQueue

namespace Trace

open LFQueue

theorem head_readable_nonempty {w Size : Nat} (h : LegalSize w Size) {s : Trace Size}
    (hs : Inv w s)
    (hseq : (s.queue.mHead + 1) % 2 ^ w
      = (s.queue.at_ (s.queue.mHead &&& s.queue.mBufferMask)).Sequence) :
    s.queue.mHead ≠ s.queue.mTail := by
  have hSize : 2 < Size := h.1
  have hM : Size < 2 ^ w := h.2.2
  have hle := hs.le
  have hcap := hs.cap
  by_cases hda : s.delivered.length < s.accepted.length
  · rw [hs.head, hs.tail]
    exact wrap_ne_of_lt hda (by omega)
  · exfalso
    have hw := hs.writable s.delivered.length (by omega) (by omega)
    rw [hs.mask, hs.head, h.mask_wrap, wrap_succ, hw] at hseq
    exact wrap_ne_of_lt (Nat.lt_succ_self s.delivered.length) (by omega) hseq.symm

end Trace

/-! ## Counting rounds -/

namespace Trace

open LFQueue

theorem step_pop_ok {w Size : Nat} (h : LegalSize w Size) {s : Trace Size} (hs : Inv w s)
    (task : Task) (hlt : s.delivered.length < s.accepted.length) :
    step w s (Op.pop task) =
      { queue := (TryPop w s.queue task).2.1, accepted := s.accepted,
        delivered := s.delivered ++ [(TryPop w s.queue task).2.2],
        results := s.results ++ [true] } := by
  have hr := (pop_result h hs task).2 hlt
  simp [step, hr]

theorem rounds_counts {w Size : Nat} (h : LegalSize w Size) (task : Task) (n : Nat) :
    ∀ s : Trace Size, Inv w s → s.accepted.length = s.delivered.length →
      ((pushPopRounds task n).foldl (step w) s).accepted.length = s.accepted.length + n ∧
      ((pushPopRounds task n).foldl (step w) s).delivered.length
        = s.delivered.length + n := by
  induction n with
  | zero => intro s _ _; exact ⟨rfl, rfl⟩
  | succ n ih =>
    intro s hs hda
    have hSize : 2 < Size := h.1
    have hs1 := inv_step h hs (Op.push task)
    have e1 := step_push_ok h hs task (by omega)
    have ha1 : (step w s (Op.push task)).accepted.length = s.accepted.length + 1 := by
      rw [e1]
      simp
    have hd1 : (step w s (Op.push task)).delivered.length = s.delivered.length := by
      rw [e1]
    have hs2 := inv_step h hs1 (Op.pop Task.defaultCtor)
    have e2 := step_pop_ok h hs1 Task.defaultCtor (by omega)
    have ha2 : (step w (step w s (Op.push task)) (Op.pop Task.defaultCtor)).accepted.length
        = s.accepted.length + 1 := by
      rw [e2]
      exact ha1
    have hd2 : (step w (step w s (Op.push task)) (Op.pop Task.defaultCtor)).delivered.length
        = s.delivered.length + 1 := by
      rw [e2]
      simp only [List.length_append, List.length_singleton]
      omega
    obtain ⟨r1, r2⟩ := ih _ hs2 (by omega)
    simp only [pushPopRounds, List.foldl_cons]
    rw [r1, r2, ha2, hd2]
    omega

theorem rounds_then_push {w Size : Nat} (h : LegalSize w Size) (task : Task) (n : Nat) :
    (run w Size (pushPopRounds task n ++ [Op.push task])).queue.mHead = n % 2 ^ w ∧
      (run w Size (pushPopRounds task n ++ [Op.push task])).queue.mTail
        = (n + 1) % 2 ^ w := by
  have hSize : 2 < Size := h.1
  have hs := inv_run h (pushPopRounds task n ++ [Op.push task])
  have hs0 := inv_run h (pushPopRounds task n)
  obtain ⟨r1, r2⟩ := rounds_counts h task n (fresh Size) (inv_fresh h) rfl
  have ha0 : (run w Size (pushPopRounds task n)).accepted.length = n := by
    unfold run
    rw [r1]
    simp [fresh]
  have hd0 : (run w Size (pushPopRounds task n)).delivered.length = n := by
    unfold run
    rw [r2]
    simp [fresh]
  have e := step_push_ok h hs0 task (by omega)
  have hrun : run w Size (pushPopRounds task n ++ [Op.push task])
      = step w (run w Size (pushPopRounds task n)) (Op.push task) := by
    rw [run_append]
    rfl
  rw [hs.head, hs.tail, hrun, e]
  dsimp only
  rw [List.length_append, List.length_singleton, ha0, hd0]
  exact ⟨rfl, rfl⟩

theorem slot_position {Size : Nat} (hSize : 0 < Size) (d i : Nat) (hi : i < Size) :
    ∃ p, d ≤ p ∧ p < d + Size ∧ p % Size = i := by
  have hdm := Nat.div_add_mod d Size
  have hr : d % Size < Size := Nat.mod_lt _ hSize
  by_cases hc : d % Size ≤ i
  · refine ⟨Size * (d / Size) + i, by omega, by omega, ?_⟩
    rw [Nat.mul_add_mod]
    exact Nat.mod_eq_of_lt hi
  · refine ⟨Size * (d / Size + 1) + i, ?_, ?_, ?_⟩
    · rw [Nat.mul_add, Nat.mul_one]
      omega
    · rw [Nat.mul_add, Nat.mul_one]
      omega
    · rw [Nat.mul_add_mod]
      exact Nat.mod_eq_of_lt hi

end Trace

/-! ## The task invariant and the task of `CreateTask` -/

namespace abstract_task

theorem Task.bound_ctor {E : Type} (f : Callable E) (wd : World E) :
    Task.Bound (Task.ctor f wd).2 (Task.ctor f wd).1 := by
  intro p hp
  refine ⟨f, ?_, rfl, rfl⟩
  have e : p = wd.heap.length := by
    simp only [Task.ctor, Option.some.injEq] at hp
    exact hp.symm
  subst e
  simp [Task.ctor, List.getD_eq_getElem?_getD]

theorem Task.bound_null {E : Type} (wd : World E) (cleaner invoke : Option Nat) :
    Task.Bound wd { mInternalFunction := none, mCleaner := cleaner, mInvoke := invoke } := by
  intro p hp
  exact Option.noConfusion hp

theorem Task.bound_grow {E : Type} (wd : World E) (t : Task) (g : Callable E)
    (ht : Task.Bound wd t) : Task.Bound (Task.ctor g wd).2 t := by
  intro p hp
  obtain ⟨obj, h1, h2, h3⟩ := ht p hp
  refine ⟨obj, ?_, h2, h3⟩
  have hlt : p < wd.heap.length := by
    by_contra hc
    rw [List.getD_eq_getElem?_getD, List.getElem?_eq_none (by omega)] at h1
    exact Option.noConfusion h1
  rw [List.getD_eq_getElem?_getD] at h1 ⊢
  simp only [Task.ctor]
  rw [List.getElem?_append_left hlt]
  exact h1

theorem Task.bound_invoke {E : Type} (wd : World E) (t u : Task)
    (ht : Task.Bound wd t) : Task.Bound (u.invoke wd).2 t := by
  intro p hp
  obtain ⟨obj, h1, h2, h3⟩ := ht p hp
  unfold Task.invoke
  cases hu : u.mInvoke with
  | none => exact ⟨obj, h1, h2, h3⟩
  | some ty =>
    simp only
    unfold invokeBody
    cases hq : u.mInternalFunction with
    | none => exact ⟨obj, h1, h2, h3⟩
    | some q =>
      simp only
      cases hc : wd.heap.getD q none with
      | none => exact ⟨obj, h1, h2, h3⟩
      | some o =>
        simp only
        by_cases hty : o.typeId = ty
        · rw [if_pos hty]
          simp only
          by_cases hqp : q = p
          · subst hqp
            rw [hc] at h1
            have ho : o = obj := Option.some.inj h1
            subst ho
            have hlt : q < wd.heap.length := by
              by_contra hcc
              rw [List.getD_eq_getElem?_getD, List.getElem?_eq_none (by omega)] at hc
              exact Option.noConfusion hc
            refine ⟨{ o with state := (o.call o.state wd.env).2.1 }, ?_, h2, h3⟩
            simp [List.getD_eq_getElem?_getD, List.getElem?_set, hlt]
          · refine ⟨obj, ?_, h2, h3⟩
            rw [← h1]
            simp [List.getD_eq_getElem?_getD, List.getElem?_set, hqp]
        · rw [if_neg hty]
          exact ⟨obj, h1, h2, h3⟩

theorem CreateTask_invoke {A R : Type} (closureType : Nat) (f : A → Except Exn R) (a : A)
    (wd : World (SharedStates R)) :
    ∃ task fut wd1, CreateTask closureType f a wd = some ((task, fut), wd1) ∧
      fut.get wd1.env = none ∧
      (task.invoke wd1).1 = Outcome.returned 0 ∧
      fut.get (task.invoke wd1).2.env = some (f a) := by
  refine ⟨_, _, _, rfl, ?_, ?_, ?_⟩
  · simp [future.get, packaged_task.ctor, packaged_task.move, packaged_task.dtor, Task.ctor,
      CreateTaskClosure.destroy, List.getD_eq_getElem?_getD]
  · simp [Task.invoke, Task.moveCtor, function_move, Task.ctor, invokeBody,
      List.getD_eq_getElem?_getD, CreateTaskClosure.call, packaged_task.call,
      packaged_task.ctor, packaged_task.move, packaged_task.dtor, CreateTaskClosure.destroy]
  · simp [Task.invoke, Task.moveCtor, function_move, Task.ctor, invokeBody,
      List.getD_eq_getElem?_getD, CreateTaskClosure.call, packaged_task.call,
      packaged_task.ctor, packaged_task.move, packaged_task.dtor, future.get,
      CreateTaskClosure.destroy]

end abstract_task

/-! ## The slots outside head, ..., tail - 1 -/

namespace Trace

open LFQueue

theorem emptyOutside_fresh (Size : Nat) : EmptyOutside (fresh Size) := by
  intro p _ hp
  simp only [fresh, List.length_nil, Nat.zero_add] at hp
  rw [Nat.mod_eq_of_lt hp]
  show ((ctor Size).at_ p).Task.mInternalFunction = none
  rw [ctor_at Size p hp]
  rfl

theorem emptyOutside_push {w Size : Nat} (h : LegalSize w Size) {s : Trace Size}
    (hs : Inv w s) (he : EmptyOutside s) (task : Task) (rs : List Bool) :
    EmptyOutside { queue := pushed w s.queue task, accepted := s.accepted ++ [task],
                   delivered := s.delivered, results := rs } := by
  have hidx : s.queue.mTail &&& s.queue.mBufferMask = s.accepted.length % Size := by
    rw [hs.mask, hs.tail, h.mask_wrap]
  have hle := hs.le
  intro p hp1 hp2
  dsimp only at hp1 hp2
  simp only [List.length_append, List.length_singleton] at hp1
  simp only [pushed, at_, hidx]
  have hne : s.accepted.length % Size ≠ p % Size :=
    wrap_ne (by omega) (by omega) (by omega)
  rw [getD_set_ne _ _ _ _ _ hne]
  exact he p (by omega) hp2

theorem emptyOutside_pop {w Size : Nat} (h : LegalSize w Size) {s : Trace Size}
    (hs : Inv w s) (he : EmptyOutside s) (rs : List Bool)
    (hlt : s.delivered.length < s.accepted.length) :
    EmptyOutside { queue := popped w s.queue, accepted := s.accepted,
                   delivered := s.delivered ++
                     [(s.queue.at_ (s.queue.mHead &&& s.queue.mBufferMask)).Task],
                   results := rs } := by
  have hSize : 2 < Size := h.1
  have hidx : s.queue.mHead &&& s.queue.mBufferMask = s.delivered.length % Size := by
    rw [hs.mask, hs.head, h.mask_wrap]
  have hin : s.delivered.length % Size < s.queue.mBuffer.length := by
    rw [hs.len]
    exact Nat.mod_lt _ (by omega)
  have hcap := hs.cap
  intro p hp1 hp2
  dsimp only at hp1 hp2
  simp only [List.length_append, List.length_singleton] at hp2
  simp only [popped, at_, hidx]
  by_cases hpa : p = s.delivered.length + Size
  · subst hpa
    rw [Nat.add_mod_right, getD_set_self _ _ _ _ hin]
    rfl
  · have hne : s.delivered.length % Size ≠ p % Size :=
      wrap_ne (by omega) (by omega) (by omega)
    rw [getD_set_ne _ _ _ _ _ hne]
    exact he p hp1 (by omega)

theorem emptyOutside_step {w Size : Nat} (h : LegalSize w Size) {s : Trace Size}
    (hs : Inv w s) (he : EmptyOutside s) (op : Op) : EmptyOutside (step w s op) := by
  cases op with
  | push task =>
    rw [step_push]
    split
    · exact emptyOutside_push h hs he task _
    · exact he
  | pop task =>
    rw [step_pop]
    split
    · next hc => exact emptyOutside_pop h hs he _ ((pop_ok_iff h hs).1 hc)
    · exact he

theorem emptyOutside_foldl {w Size : Nat} (h : LegalSize w Size) (ops : List Op) :
    ∀ s : Trace Size, Inv w s → EmptyOutside s → EmptyOutside (ops.foldl (step w) s) := by
  induction ops with
  | nil => intro s _ he; exact he
  | cons op ops ih =>
    intro s hs he
    exact ih _ (inv_step h hs op) (emptyOutside_step h hs he op)

theorem emptyOutside_run {w Size : Nat} (h : LegalSize w Size) (ops : List Op) :
    EmptyOutside (run w Size ops) :=
  emptyOutside_foldl h ops _ (inv_fresh h) (emptyOutside_fresh Size)

end Trace

/-! ## The claims -/

open LFQueue Trace

/-- C1: for every legal capacity and every finite sequence of calls of TryPush and TryPop run
one at a time on a freshly constructed queue, the tasks handed out by the successful calls of
TryPop are, in order, the first tasks accepted by the successful calls of TryPush, and the
tasks accepted and not yet handed out are exactly the ones stored at the positions from head
to tail - 1, in order. -/
theorem C1_fifo (w Size : Nat) (h : LegalSize w Size) (ops : List Op) :
    (run w Size ops).delivered
        = (run w Size ops).accepted.take (run w Size ops).delivered.length ∧
      (run w Size ops).accepted
        = (run w Size ops).delivered ++ held w (run w Size ops).queue := by
  have hs := inv_run h ops
  refine ⟨hs.fifo, ?_⟩
  rw [held_eq h hs]
  conv => lhs; rw [← List.take_append_drop (run w Size ops).delivered.length
    (run w Size ops).accepted]
  rw [← hs.fifo]

theorem C1_fifo_witness :
    LegalSize 64 4 ∧
      ((run 64 4 [Op.push ⟨some 7, some 1, some 1⟩, Op.pop Task.defaultCtor,
          Op.pop Task.defaultCtor, Op.push ⟨some 8, some 2, some 2⟩,
          Op.push ⟨some 9, some 1, some 1⟩]).delivered
        = (run 64 4 [Op.push ⟨some 7, some 1, some 1⟩, Op.pop Task.defaultCtor,
          Op.pop Task.defaultCtor, Op.push ⟨some 8, some 2, some 2⟩,
          Op.push ⟨some 9, some 1, some 1⟩]).accepted.take
            (run 64 4 [Op.push ⟨some 7, some 1, some 1⟩, Op.pop Task.defaultCtor,
              Op.pop Task.defaultCtor, Op.push ⟨some 8, some 2, some 2⟩,
              Op.push ⟨some 9, some 1, some 1⟩]).delivered.length ∧
      (run 64 4 [Op.push ⟨some 7, some 1, some 1⟩, Op.pop Task.defaultCtor,
          Op.pop Task.defaultCtor, Op.push ⟨some 8, some 2, some 2⟩,
          Op.push ⟨some 9, some 1, some 1⟩]).accepted
        = (run 64 4 [Op.push ⟨some 7, some 1, some 1⟩, Op.pop Task.defaultCtor,
          Op.pop Task.defaultCtor, Op.push ⟨some 8, some 2, some 2⟩,
          Op.push ⟨some 9, some 1, some 1⟩]).delivered ++
          held 64 (run 64 4 [Op.push ⟨some 7, some 1, some 1⟩, Op.pop Task.defaultCtor,
            Op.pop Task.defaultCtor, Op.push ⟨some 8, some 2, some 2⟩,
            Op.push ⟨some 9, some 1, some 1⟩]).queue) :=
  ⟨by decide, C1_fifo 64 4 (by decide) _⟩

/-- C2: for every legal capacity Size and every k, on a freshly constructed queue that has had
exactly k successful calls of TryPush and no call of TryPop, k is at most Size, the next
Size - k calls of TryPush all return true and the call of TryPush after them returns false. -/
theorem C2_capacity (w Size : Nat) (h : LegalSize w Size) (hist more : List Task) (last : Task)
    (k : Nat) (hk : (run w Size (hist.map Op.push)).accepted.length = k)
    (hm : more.length = Size - k) :
    k ≤ Size ∧
      (run w Size (hist.map Op.push ++ more.map Op.push)).results
        = (run w Size (hist.map Op.push)).results ++ List.replicate (Size - k) true ∧
      (TryPush w (run w Size (hist.map Op.push ++ more.map Op.push)).queue last).1 = false := by
  have hs := inv_run h (hist.map Op.push)
  have hd : (run w Size (hist.map Op.push)).delivered = [] := by
    unfold run
    rw [pushes_delivered]
    rfl
  have hcap := hs.cap
  rw [hd, hk] at hcap
  simp only [List.length_nil, Nat.zero_add] at hcap
  obtain ⟨h1, h2⟩ := pushes_room h more _ hs (by rw [hk, hd, hm]; simp; omega)
  have hs2 := inv_run h (hist.map Op.push ++ more.map Op.push)
  rw [run_append] at hs2 ⊢
  refine ⟨hcap, by rw [h2, hm], ?_⟩
  rw [TryPush_eq]
  have hno : ¬ ((more.map Op.push).foldl (step w) (run w Size (hist.map Op.push))).queue.mTail
      = (((more.map Op.push).foldl (step w) (run w Size (hist.map Op.push))).queue.at_
          (((more.map Op.push).foldl (step w) (run w Size (hist.map Op.push))).queue.mTail
            &&& ((more.map Op.push).foldl (step w)
              (run w Size (hist.map Op.push))).queue.mBufferMask)).Sequence := by
    intro hc
    have := (push_ok_iff h hs2).1 hc
    rw [h1, pushes_delivered, hd] at this
    simp only [List.length_append, hk, hm, List.length_nil] at this
    omega
  rw [if_neg hno]

theorem C2_capacity_witness :
    LegalSize 64 4 ∧
      (run 64 4 ([⟨some 1, some 1, some 1⟩].map Op.push)).accepted.length = 1 ∧
      [(⟨some 2, some 1, some 1⟩ : Task), ⟨some 3, some 1, some 1⟩,
        ⟨some 4, some 1, some 1⟩].length = 4 - 1 ∧
      (1 ≤ 4 ∧
        (run 64 4 ([⟨some 1, some 1, some 1⟩].map Op.push ++
            [(⟨some 2, some 1, some 1⟩ : Task), ⟨some 3, some 1, some 1⟩,
              ⟨some 4, some 1, some 1⟩].map Op.push)).results
          = (run 64 4 ([⟨some 1, some 1, some 1⟩].map Op.push)).results
              ++ List.replicate (4 - 1) true ∧
        (TryPush 64 (run 64 4 ([⟨some 1, some 1, some 1⟩].map Op.push ++
            [(⟨some 2, some 1, some 1⟩ : Task), ⟨some 3, some 1, some 1⟩,
              ⟨some 4, some 1, some 1⟩].map Op.push)).queue
            ⟨some 5, some 1, some 1⟩).1 = false) :=
  ⟨by decide, by decide, by decide,
    C2_capacity 64 4 (by decide) _ _ _ 1 (by decide) (by decide)⟩

/-- C3: in every state reached by calls run one at a time from a fresh queue of legal capacity
Size, TryPush returns true if and only if fewer than Size tasks are held (successful pushes
minus successful pops). On a full queue every further TryPush returns false, the next TryPop
returns true, and the first TryPush after it returns true. -/
theorem C3_push_iff_room (w Size : Nat) (h : LegalSize w Size) (ops : List Op) (task : Task) :
    ((TryPush w (run w Size ops).queue task).1 = true ↔
        (run w Size ops).accepted.length - (run w Size ops).delivered.length < Size) ∧
      ((run w Size ops).accepted.length - (run w Size ops).delivered.length = Size →
        ∀ (fails : List Task) (out : Task),
          (run w Size (ops ++ fails.map Op.push)).results
            = (run w Size ops).results ++ List.replicate fails.length false ∧
          (TryPop w (run w Size (ops ++ fails.map Op.push)).queue out).1 = true ∧
          (TryPush w (TryPop w (run w Size (ops ++ fails.map Op.push)).queue out).2.1
            task).1 = true) := by
  have hs := inv_run h ops
  have hle := hs.le
  have hSize : 2 < Size := h.1
  refine ⟨?_, ?_⟩
  · rw [push_result h hs]
    omega
  · intro hfull fails out
    have hf := pushes_full h fails _ hs (by omega)
    rw [run_append, hf]
    refine ⟨rfl, ?_, ?_⟩
    · exact (pop_result h hs out).2 (by omega)
    · have hs2 := inv_step h hs (Op.pop out)
      have hq : (TryPop w (run w Size ops).queue out).2.1
          = (step w (run w Size ops) (Op.pop out)).queue := rfl
      show (TryPush w (TryPop w (run w Size ops).queue out).2.1 task).1 = true
      rw [hq, push_result h hs2]
      have hd : (step w (run w Size ops) (Op.pop out)).delivered.length
          = (run w Size ops).delivered.length + 1 := by
        simp [step, (pop_result h hs out).2 (show (run w Size ops).delivered.length
          < (run w Size ops).accepted.length by omega)]
      have ha : (step w (run w Size ops) (Op.pop out)).accepted
          = (run w Size ops).accepted := rfl
      rw [hd, ha]
      omega

theorem C3_push_iff_room_witness :
    LegalSize 64 4 ∧
      ((TryPush 64 (run 64 4 [Op.push ⟨some 1, some 1, some 1⟩,
            Op.push ⟨some 2, some 1, some 1⟩, Op.push ⟨some 3, some 1, some 1⟩,
            Op.push ⟨some 4, some 1, some 1⟩]).queue ⟨some 5, some 1, some 1⟩).1 = true ↔
        (run 64 4 [Op.push ⟨some 1, some 1, some 1⟩,
            Op.push ⟨some 2, some 1, some 1⟩, Op.push ⟨some 3, some 1, some 1⟩,
            Op.push ⟨some 4, some 1, some 1⟩]).accepted.length
          - (run 64 4 [Op.push ⟨some 1, some 1, some 1⟩,
            Op.push ⟨some 2, some 1, some 1⟩, Op.push ⟨some 3, some 1, some 1⟩,
            Op.push ⟨some 4, some 1, some 1⟩]).delivered.length < 4) ∧
      ((run 64 4 ([Op.push ⟨some 1, some 1, some 1⟩,
            Op.push ⟨some 2, some 1, some 1⟩, Op.push ⟨some 3, some 1, some 1⟩,
            Op.push ⟨some 4, some 1, some 1⟩] ++
            [(⟨some 6, some 1, some 1⟩ : Task), ⟨some 7, some 1, some 1⟩].map Op.push)).results
          = (run 64 4 [Op.push ⟨some 1, some 1, some 1⟩,
            Op.push ⟨some 2, some 1, some 1⟩, Op.push ⟨some 3, some 1, some 1⟩,
            Op.push ⟨some 4, some 1, some 1⟩]).results ++ List.replicate
              [(⟨some 6, some 1, some 1⟩ : Task), ⟨some 7, some 1, some 1⟩].length false ∧
        (TryPop 64 (run 64 4 ([Op.push ⟨some 1, some 1, some 1⟩,
            Op.push ⟨some 2, some 1, some 1⟩, Op.push ⟨some 3, some 1, some 1⟩,
            Op.push ⟨some 4, some 1, some 1⟩] ++
            [(⟨some 6, some 1, some 1⟩ : Task), ⟨some 7, some 1, some 1⟩].map Op.push)).queue
            Task.defaultCtor).1 = true ∧
        (TryPush 64 (TryPop 64 (run 64 4 ([Op.push ⟨some 1, some 1, some 1⟩,
            Op.push ⟨some 2, some 1, some 1⟩, Op.push ⟨some 3, some 1, some 1⟩,
            Op.push ⟨some 4, some 1, some 1⟩] ++
            [(⟨some 6, some 1, some 1⟩ : Task), ⟨some 7, some 1, some 1⟩].map Op.push)).queue
            Task.defaultCtor).2.1 ⟨some 5, some 1, some 1⟩).1 = true) :=
  ⟨by decide,
    (C3_push_iff_room 64 4 (by decide) _ _).1,
    (C3_push_iff_room 64 4 (by decide) _ _).2 (by decide) _ _⟩

/-- C4: in every state reached by calls run one at a time from a fresh queue of legal capacity,
TryPop returns false if and only if the queue is empty, that is IsEmpty() is true, that is
head equals tail; whenever an accepted task has not yet been handed out, TryPop returns
true. -/
theorem C4_pop_iff_nonempty (w Size : Nat) (h : LegalSize w Size) (ops : List Op)
    (out : Task) :
    ((TryPop w (run w Size ops).queue out).1 = false ↔
        LFQueue.IsEmpty (run w Size ops).queue = true) ∧
      (LFQueue.IsEmpty (run w Size ops).queue = true ↔
        (run w Size ops).queue.mHead = (run w Size ops).queue.mTail) ∧
      ((run w Size ops).delivered.length < (run w Size ops).accepted.length →
        (TryPop w (run w Size ops).queue out).1 = true) := by
  have hs := inv_run h ops
  have hle := hs.le
  have hempty : LFQueue.IsEmpty (run w Size ops).queue = true ↔
      (run w Size ops).queue.mHead = (run w Size ops).queue.mTail := by
    simp [LFQueue.IsEmpty]
  refine ⟨?_, hempty, (pop_result h hs out).2⟩
  rw [hempty, empty_iff h hs, Bool.eq_false_iff, ne_eq, pop_result h hs]
  omega

theorem C4_pop_iff_nonempty_witness :
    LegalSize 64 4 ∧
      ((TryPop 64 (run 64 4 [Op.push ⟨some 1, some 1, some 1⟩]).queue
          Task.defaultCtor).1 = false ↔
        LFQueue.IsEmpty (run 64 4 [Op.push ⟨some 1, some 1, some 1⟩]).queue = true) ∧
      (LFQueue.IsEmpty (run 64 4 [Op.push ⟨some 1, some 1, some 1⟩]).queue = true ↔
        (run 64 4 [Op.push ⟨some 1, some 1, some 1⟩]).queue.mHead
          = (run 64 4 [Op.push ⟨some 1, some 1, some 1⟩]).queue.mTail) ∧
      (TryPop 64 (run 64 4 [Op.push ⟨some 1, some 1, some 1⟩]).queue
          Task.defaultCtor).1 = true :=
  ⟨by decide,
    (C4_pop_iff_nonempty 64 4 (by decide) _ _).1,
    (C4_pop_iff_nonempty 64 4 (by decide) _ Task.defaultCtor).2.1,
    (C4_pop_iff_nonempty 64 4 (by decide) _ _).2.2 (by decide)⟩

/-- C5: IsEmpty() returns true on a freshly constructed queue, and returns true after every
sequence of calls of TryPush and TryPop run one at a time in which the number of successful
pushes equals the number of successful pops. -/
theorem C5_is_empty (w Size : Nat) (h : LegalSize w Size) (ops : List Op) :
    LFQueue.IsEmpty (ctor Size) = true ∧
      ((run w Size ops).accepted.length = (run w Size ops).delivered.length →
        LFQueue.IsEmpty (run w Size ops).queue = true) := by
  refine ⟨rfl, fun e => ?_⟩
  have hs := inv_run h ops
  simp only [LFQueue.IsEmpty, beq_iff_eq]
  exact (empty_iff h hs).2 e.symm

theorem C5_is_empty_witness :
    LegalSize 64 4 ∧ LFQueue.IsEmpty (ctor 4) = true ∧
      LFQueue.IsEmpty (run 64 4 [Op.push ⟨some 1, some 1, some 1⟩, Op.pop Task.defaultCtor,
        Op.pop Task.defaultCtor, Op.push ⟨some 2, some 1, some 1⟩,
        Op.pop Task.defaultCtor]).queue = true :=
  ⟨by decide,
    (C5_is_empty 64 4 (by decide) []).1,
    (C5_is_empty 64 4 (by decide) _).2 (by decide)⟩

/-- C6: round trip. For every task T and every empty queue state reached by calls run one at a
time, TryPush(T) followed by TryPop(out) both return true and out then is T (same state
pointer, same thunks); so invoking out ends as invoking T would have, with the same status
code and the same world, and every future reads the same result afterwards. -/
theorem C6_round_trip (w Size : Nat) (h : LegalSize w Size) (ops : List Op)
    (hempty : LFQueue.IsEmpty (run w Size ops).queue = true) (T out : Task) :
    (TryPush w (run w Size ops).queue T).1 = true ∧
      (TryPop w (TryPush w (run w Size ops).queue T).2.1 out).1 = true ∧
      (TryPop w (TryPush w (run w Size ops).queue T).2.1 out).2.2 = T ∧
      (∀ (E : Type) (wd : World E),
        Task.invoke (TryPop w (TryPush w (run w Size ops).queue T).2.1 out).2.2 wd
          = Task.invoke T wd) ∧
      (∀ (R : Type) (wd : World (SharedStates R)) (fut : future),
        fut.get (Task.invoke
            (TryPop w (TryPush w (run w Size ops).queue T).2.1 out).2.2 wd).2.env
          = fut.get (Task.invoke T wd).2.env) := by
  have hs := inv_run h ops
  have hSize : 2 < Size := h.1
  have hda : (run w Size ops).delivered.length = (run w Size ops).accepted.length := by
    apply (empty_iff h hs).1
    simpa [LFQueue.IsEmpty] using hempty
  have hroom : (run w Size ops).accepted.length
      < (run w Size ops).delivered.length + Size := by omega
  have hstep := step_push_ok h hs T hroom
  have hs1 := inv_step h hs (Op.push T)
  rw [hstep] at hs1
  have hlt : (run w Size ops).delivered.length
      < ((run w Size ops).accepted ++ [T]).length := by
    simp only [List.length_append, List.length_singleton]
    omega
  have hout : (TryPop w (TryPush w (run w Size ops).queue T).2.1 out).2.2 = T := by
    have := pop_task h hs1 out hlt
    dsimp only at this
    rw [this, hda]
    simp [List.getD_eq_getElem?_getD]
  refine ⟨(push_result h hs T).2 hroom, (pop_result h hs1 out).2 hlt, hout, ?_, ?_⟩
  · intro E wd
    rw [hout]
  · intro R wd fut
    rw [hout]

theorem C6_round_trip_witness :
    LegalSize 64 4 ∧
      LFQueue.IsEmpty (run 64 4 [Op.push ⟨some 1, some 1, some 1⟩,
        Op.pop Task.defaultCtor]).queue = true ∧
      ((TryPush 64 (run 64 4 [Op.push ⟨some 1, some 1, some 1⟩,
          Op.pop Task.defaultCtor]).queue ⟨some 2, some 3, some 3⟩).1 = true ∧
        (TryPop 64 (TryPush 64 (run 64 4 [Op.push ⟨some 1, some 1, some 1⟩,
          Op.pop Task.defaultCtor]).queue ⟨some 2, some 3, some 3⟩).2.1
            Task.defaultCtor).1 = true ∧
        (TryPop 64 (TryPush 64 (run 64 4 [Op.push ⟨some 1, some 1, some 1⟩,
          Op.pop Task.defaultCtor]).queue ⟨some 2, some 3, some 3⟩).2.1
            Task.defaultCtor).2.2 = ⟨some 2, some 3, some 3⟩) :=
  ⟨by decide, by decide,
    (C6_round_trip 64 4 (by decide) _ (by decide) _ Task.defaultCtor).1,
    (C6_round_trip 64 4 (by decide) _ (by decide) _ _).2.1,
    (C6_round_trip 64 4 (by decide) _ (by decide) _ _).2.2.1⟩

/-- C7: when TryPush(task) returns false, the task of the caller is untouched (same state
pointer, same thunks) and the queue is unchanged; when it returns true, the task of the caller
is left with a null state pointer and the slot of the reserved position stores the task, so
that in a state reached by calls run one at a time the task is the last of the tasks held. -/
theorem C7_push_ownership (w Size : Nat) (task : Task) :
    (∀ q : LFQueue Size,
      ((TryPush w q task).1 = false →
        (TryPush w q task).2.1 = q ∧ (TryPush w q task).2.2 = task) ∧
      ((TryPush w q task).1 = true →
        (TryPush w q task).2.2.mInternalFunction = none ∧
        (q.mTail &&& q.mBufferMask < q.mBuffer.length →
          ((TryPush w q task).2.1.at_ (q.mTail &&& q.mBufferMask)).Task = task))) ∧
      (LegalSize w Size → ∀ ops : List Op,
        (TryPush w (run w Size ops).queue task).1 = true →
        held w (TryPush w (run w Size ops).queue task).2.1
          = held w (run w Size ops).queue ++ [task]) := by
  refine ⟨fun q => ?_, fun h ops hok => ?_⟩
  · rw [TryPush_eq]
    split
    · refine ⟨fun e => Bool.noConfusion e, fun _ => ⟨rfl, fun hin => ?_⟩⟩
      simp only [pushed, at_]
      rw [getD_set_self _ _ _ _ hin]
    · exact ⟨fun _ => ⟨rfl, rfl⟩, fun e => Bool.noConfusion e⟩
  · have hs := inv_run h ops
    have hroom := (push_result h hs task).1 hok
    have hs1 := inv_step h hs (Op.push task)
    rw [step_push_ok h hs task hroom] at hs1
    have e1 := held_eq h hs1
    dsimp only at e1
    rw [e1, held_eq h hs, List.drop_append_of_le_length hs.le]

theorem C7_push_ownership_witness :
    LegalSize 64 4 ∧
      (TryPush 64 (run 64 4 [Op.push ⟨some 1, some 1, some 1⟩]).queue
        ⟨some 2, some 3, some 3⟩).1 = true ∧
      held 64 (TryPush 64 (run 64 4 [Op.push ⟨some 1, some 1, some 1⟩]).queue
          ⟨some 2, some 3, some 3⟩).2.1
        = held 64 (run 64 4 [Op.push ⟨some 1, some 1, some 1⟩]).queue
          ++ [⟨some 2, some 3, some 3⟩] :=
  ⟨by decide, by decide,
    (C7_push_ownership 64 4 ⟨some 2, some 3, some 3⟩).2 (by decide) _ (by decide)⟩

/-- C8: for every callable f and arguments a, CreateTask(f, a) gives a task and a future, the
future not ready; the first invocation of the task returns the status 0, and after it the
future yields exactly f(a). With add and (1, 2) the future yields 3; with the sum of three
arguments and (1, 2, 3) it yields 6. -/
theorem C8_create_task :
    (∀ (A R : Type) (closureType : Nat) (f : A → Except Exn R) (a : A)
        (wd : World (SharedStates R)),
      ∃ task fut wd1, CreateTask closureType f a wd = some ((task, fut), wd1) ∧
        fut.get wd1.env = none ∧
        (task.invoke wd1).1 = Outcome.returned 0 ∧
        fut.get (task.invoke wd1).2.env = some (f a)) ∧
      (∃ task fut wd1, CreateTask 0 add (1, 2) ⟨[], []⟩ = some ((task, fut), wd1) ∧
        (task.invoke wd1).1 = Outcome.returned 0 ∧
        fut.get (task.invoke wd1).2.env = some (Except.ok 3)) ∧
      (∃ task fut wd1, CreateTask 0 sum3 (1, 2, 3) ⟨[], []⟩ = some ((task, fut), wd1) ∧
        (task.invoke wd1).1 = Outcome.returned 0 ∧
        fut.get (task.invoke wd1).2.env = some (Except.ok 6)) := by
  refine ⟨?_, ⟨_, _, _, rfl, rfl, rfl⟩, ⟨_, _, _, rfl, rfl, rfl⟩⟩
  intro A R closureType f a wd
  refine ⟨_, _, _, rfl, ?_, ?_, ?_⟩
  · simp [future.get, packaged_task.ctor, packaged_task.move, packaged_task.dtor, Task.ctor,
      CreateTaskClosure.destroy, List.getD_eq_getElem?_getD]
  · simp [Task.invoke, Task.moveCtor, function_move, Task.ctor, invokeBody,
      List.getD_eq_getElem?_getD, CreateTaskClosure.call, packaged_task.call,
      packaged_task.ctor, packaged_task.move, packaged_task.dtor, CreateTaskClosure.destroy]
  · simp [Task.invoke, Task.moveCtor, function_move, Task.ctor, invokeBody,
      List.getD_eq_getElem?_getD, CreateTaskClosure.call, packaged_task.call,
      packaged_task.ctor, packaged_task.move, packaged_task.dtor, future.get,
      CreateTaskClosure.destroy]

/-- C9: moving a task, by move construction or by move assignment (in particular into an empty
task), hands the state pointer and both thunks to the destination and leaves the source with
a null state pointer; invoking the destination after the move ends as invoking the source
before the move would have, with the same result and the same world. -/
theorem C9_move (t self : Task) :
    (Task.moveCtor t).1 = t ∧
      (Task.moveCtor t).1.mInternalFunction = t.mInternalFunction ∧
      (Task.moveCtor t).1.mCleaner = t.mCleaner ∧
      (Task.moveCtor t).1.mInvoke = t.mInvoke ∧
      (Task.moveCtor t).2.mInternalFunction = none ∧
      (Task.moveAssign self t).1 = t ∧
      (Task.moveAssign self t).1.mInternalFunction = t.mInternalFunction ∧
      (Task.moveAssign self t).1.mCleaner = t.mCleaner ∧
      (Task.moveAssign self t).1.mInvoke = t.mInvoke ∧
      (Task.moveAssign self t).2.mInternalFunction = none ∧
      (∀ (E : Type) (wd : World E),
        Task.invoke (Task.moveCtor t).1 wd = Task.invoke t wd ∧
        Task.invoke (Task.moveAssign self t).1 wd = Task.invoke t wd) := by
  rw [Task.moveCtor_eq, Task.moveAssign_eq]
  exact ⟨rfl, rfl, rfl, rfl, rfl, rfl, rfl, rfl, rfl, rfl, fun _ _ => ⟨rfl, rfl⟩⟩

/-- C10: a task constructed from a callable f and invoked returns exactly what f returns, and
leaves the world as the call of f leaves it; the same holds for the task handed out by TryPop
at the place where the task was accepted by TryPush. -/
theorem C10_invoke_returns (E : Type) (f : Callable E) (wd : World E) :
    ((Task.ctor f wd).1.invoke (Task.ctor f wd).2).1 = (f.call f.state wd.env).1 ∧
      ((Task.ctor f wd).1.invoke (Task.ctor f wd).2).2.env = (f.call f.state wd.env).2.2 ∧
      (∀ (w Size : Nat), LegalSize w Size → ∀ (ops : List Op) (i : Nat),
        i < (run w Size ops).delivered.length →
        (run w Size ops).accepted[i]? = some (Task.ctor f wd).1 →
        ∃ out, (run w Size ops).delivered[i]? = some out ∧
          (out.invoke (Task.ctor f wd).2).1 = (f.call f.state wd.env).1 ∧
          (out.invoke (Task.ctor f wd).2).2.env = (f.call f.state wd.env).2.2) := by
  have h1 : ((Task.ctor f wd).1.invoke (Task.ctor f wd).2).1 = (f.call f.state wd.env).1 := by
    simp [Task.invoke, Task.ctor, invokeBody, List.getD_eq_getElem?_getD]
  have h2 : ((Task.ctor f wd).1.invoke (Task.ctor f wd).2).2.env
      = (f.call f.state wd.env).2.2 := by
    simp [Task.invoke, Task.ctor, invokeBody, List.getD_eq_getElem?_getD]
  refine ⟨h1, h2, ?_⟩
  intro w Size h ops i hi hacc
  refine ⟨(Task.ctor f wd).1, ?_, h1, h2⟩
  rw [delivered_eq_accepted h ops i hi, hacc]

theorem C10_invoke_returns_witness :
    LegalSize 64 4 ∧
      0 < (run 64 4 [Op.push (Task.ctor status7 ⟨[], ()⟩).1,
        Op.pop Task.defaultCtor]).delivered.length ∧
      (run 64 4 [Op.push (Task.ctor status7 ⟨[], ()⟩).1,
        Op.pop Task.defaultCtor]).accepted[0]? = some (Task.ctor status7 ⟨[], ()⟩).1 ∧
      ((Task.ctor status7 ⟨[], ()⟩).1.invoke (Task.ctor status7 ⟨[], ()⟩).2).1
        = Outcome.returned 7 ∧
      (∃ out, (run 64 4 [Op.push (Task.ctor status7 ⟨[], ()⟩).1,
          Op.pop Task.defaultCtor]).delivered[0]? = some out ∧
        (out.invoke (Task.ctor status7 ⟨[], ()⟩).2).1 = Outcome.returned 7 ∧
        (out.invoke (Task.ctor status7 ⟨[], ()⟩).2).2.env = ()) :=
  ⟨by decide, by decide, by decide,
    (C10_invoke_returns Unit status7 ⟨[], ()⟩).1,
    (C10_invoke_returns Unit status7 ⟨[], ()⟩).2.2 64 4 (by decide) _ 0 (by decide)
      (by decide)⟩

/-- C11: a capacity Size is accepted by the two static assertions if and only if Size > 2 and
Size is a power of two, that is has exactly one bit set, that is Size = 2^k for some k >= 2;
the values 0, 1, 2, 3, 5 and 6 are rejected and 4 is the smallest capacity accepted. -/
theorem C11_capacity_accepted (Size : Nat) :
    (static_asserts Size = true ↔ Size > 2 ∧ ∃ k, Size = 2 ^ k) ∧
      (static_asserts Size = true ↔ Size > 2 ∧ ∃ k, ∀ i, Size.testBit i = decide (k = i)) ∧
      (static_asserts Size = true ↔ ∃ k, 2 ≤ k ∧ Size = 2 ^ k) ∧
      static_asserts 0 = false ∧ static_asserts 1 = false ∧ static_asserts 2 = false ∧
      static_asserts 3 = false ∧ static_asserts 5 = false ∧ static_asserts 6 = false ∧
      static_asserts 4 = true ∧ (static_asserts Size = true → 4 ≤ Size) := by
  have h1 : static_asserts Size = true ↔ Size > 2 ∧ ∃ k, Size = 2 ^ k := by
    simp only [static_asserts, Bool.and_eq_true, decide_eq_true_eq, has_single_bit_iff]
  refine ⟨h1, ?_, static_asserts_iff Size, by decide, by decide, by decide, by decide,
    by decide, by decide, by decide, ?_⟩
  · rw [h1, one_bit_iff]
  · intro h
    obtain ⟨k, hk, rfl⟩ := (static_asserts_iff Size).1 h
    calc 4 = 2 ^ 2 := by norm_num
      _ ≤ 2 ^ k := Nat.pow_le_pow_right (by norm_num) hk

/-- C18: for every legal capacity Size and every position p, the slot index computed with the
mask of the queue is the remainder, p & (Size - 1) = p mod Size, and it is an index below Size
into the slot array. -/
theorem C18_mask_is_mod (w Size : Nat) (h : LegalSize w Size) (p : Nat) :
    p &&& (ctor Size).mBufferMask = p % Size ∧
      p &&& (ctor Size).mBufferMask < Size ∧
      p &&& (ctor Size).mBufferMask < (ctor Size).mBuffer.length ∧
      (∀ ops : List Op,
        p &&& (run w Size ops).queue.mBufferMask = p % Size ∧
        p &&& (run w Size ops).queue.mBufferMask < (run w Size ops).queue.mBuffer.length) := by
  have hpos : 0 < Size := Nat.lt_trans (by norm_num) h.1
  have e : p &&& (ctor Size).mBufferMask = p % Size := h.mask p
  refine ⟨e, ?_, ?_, fun ops => ?_⟩
  · rw [e]
    exact Nat.mod_lt _ hpos
  · rw [e]
    simp [ctor, Nat.mod_lt _ hpos]
  · have hs := inv_run h ops
    rw [hs.mask, hs.len, h.mask p]
    exact ⟨rfl, Nat.mod_lt _ hpos⟩

theorem C18_mask_is_mod_witness :
    LegalSize 64 1024 ∧
      (100000 &&& (ctor 1024).mBufferMask = 100000 % 1024 ∧
        100000 &&& (ctor 1024).mBufferMask < 1024 ∧
        100000 &&& (ctor 1024).mBufferMask < (ctor 1024).mBuffer.length) :=
  ⟨by decide,
    (C18_mask_is_mod 64 1024 (by decide) 100000).1,
    (C18_mask_is_mod 64 1024 (by decide) 100000).2.1,
    (C18_mask_is_mod 64 1024 (by decide) 100000).2.2.1⟩

/-- C19: counter overflow is index-safe. With positions held modulo 2^w and Size a legal
capacity, for every position p (below 2^w or not) the index of the wrapped successor is the successor
of the index modulo Size, and the index of the wrapped p + Size is the index of p; at
p = 2^w - 1 the successor wraps to position 0 and index 0. So the position reserved by a
successful TryPush or TryPop is followed by the next slot, also across the overflow. -/
theorem C19_overflow_index_safe (w Size : Nat) (h : LegalSize w Size) (p : Nat) :
    ((p + 1) % 2 ^ w) &&& (ctor Size).mBufferMask
        = ((p &&& (ctor Size).mBufferMask) + 1) % Size ∧
      ((p + Size) % 2 ^ w) &&& (ctor Size).mBufferMask = p &&& (ctor Size).mBufferMask ∧
      ((2 ^ w - 1 + 1) % 2 ^ w = 0 ∧
        ((2 ^ w - 1 + 1) % 2 ^ w) &&& (ctor Size).mBufferMask = 0 ∧
        (2 ^ w - 1) &&& (ctor Size).mBufferMask = Size - 1) ∧
      (∀ (q : LFQueue Size) (task : Task), q.mBufferMask = Size - 1 →
        ((TryPush w q task).1 = true →
          (TryPush w q task).2.1.mTail &&& q.mBufferMask
            = ((q.mTail &&& q.mBufferMask) + 1) % Size) ∧
        ((TryPop w q task).1 = true →
          (TryPop w q task).2.1.mHead &&& q.mBufferMask
            = ((q.mHead &&& q.mBufferMask) + 1) % Size)) := by
  have hM : 0 < 2 ^ w := Nat.pow_pos (by norm_num)
  have hwrap : (2 ^ w - 1 + 1) % 2 ^ w = 0 := by
    rw [Nat.sub_add_cancel hM, Nat.mod_self]
  have hlast : (2 ^ w - 1) &&& (Size - 1) = Size - 1 := by
    obtain ⟨k, hk, _, hkw⟩ := h.pow
    subst hk
    rw [Nat.and_pow_two_sub_one_eq_mod]
    obtain ⟨c, hc⟩ := Nat.pow_dvd_pow 2 (Nat.le_of_lt hkw)
    have hk0 : 0 < 2 ^ k := Nat.pow_pos (by norm_num)
    have hc0 : 0 < c := by
      rcases Nat.eq_zero_or_pos c with h0 | h0
      · rw [h0, Nat.mul_zero] at hc
        omega
      · exact h0
    obtain ⟨c1, rfl⟩ : ∃ c1, c = c1 + 1 := ⟨c - 1, by omega⟩
    have e : 2 ^ w - 1 = (2 ^ k - 1) + 2 ^ k * c1 := by
      rw [hc, Nat.mul_succ]
      omega
    rw [e, Nat.add_mul_mod_self_left]
    exact Nat.mod_eq_of_lt (by omega)
  refine ⟨h.index_succ p, h.index_add_size p, ⟨hwrap, ?_, hlast⟩, fun q task hmask => ⟨?_, ?_⟩⟩
  · rw [hwrap]
    exact Nat.zero_and _
  · intro hok
    rw [TryPush_eq] at hok ⊢
    split at hok
    · rw [if_pos (by assumption)]
      show ((q.mTail + 1) % 2 ^ w) &&& q.mBufferMask = _
      rw [hmask]
      exact h.index_succ _
    · exact Bool.noConfusion hok
  · intro hok
    rw [TryPop_eq] at hok ⊢
    split at hok
    · rw [if_pos (by assumption)]
      show ((q.mHead + 1) % 2 ^ w) &&& q.mBufferMask = _
      rw [hmask]
      exact h.index_succ _
    · exact Bool.noConfusion hok

theorem C19_overflow_index_safe_witness :
    LegalSize 64 4 ∧ 18446744073709551615 < 2 ^ 64 ∧
      (((18446744073709551615 + 1) % 2 ^ 64) &&& (ctor 4).mBufferMask
          = ((18446744073709551615 &&& (ctor 4).mBufferMask) + 1) % 4 ∧
        ((18446744073709551615 + 4) % 2 ^ 64) &&& (ctor 4).mBufferMask
          = 18446744073709551615 &&& (ctor 4).mBufferMask) :=
  ⟨by decide, by decide,
    (C19_overflow_index_safe 64 4 (by decide) 18446744073709551615).1,
    (C19_overflow_index_safe 64 4 (by decide) 18446744073709551615).2.1⟩

/-- C12: exactly-once release. A task is constructed from a callable and passed through any
number of move constructions; once all the task objects involved are destroyed, in any order,
the erased state has been released exactly once: the destructions are defined (a second
release of the freed cell would not be), the cell is freed and the destructor of the callable
has run once on it. Destroying a task that was moved from releases nothing, and neither does
destroying any task whose state pointer is null, whatever its thunks. -/
theorem C12_exactly_once_release (E : Type) (f : Callable E) (wd : World E) (n : Nat)
    (order : List Task)
    (horder : order.Perm ((Task.moveChain n (Task.ctor f wd).1).1 ::
      (Task.moveChain n (Task.ctor f wd).1).2)) :
    (Task.ctor f wd).2.heap.getD wd.heap.length none = some f ∧
      Task.destroyAll order (Task.ctor f wd).2
        = some { heap := (Task.ctor f wd).2.heap.set wd.heap.length none,
                 env := f.destroy f.state wd.env } ∧
      ((Task.ctor f wd).2.heap.set wd.heap.length none).getD wd.heap.length none = none ∧
      Task.dtor (Task.moveChain n (Task.ctor f wd).1).1
          { heap := (Task.ctor f wd).2.heap.set wd.heap.length none,
            env := f.destroy f.state wd.env } = none ∧
      (∀ t ∈ (Task.moveChain n (Task.ctor f wd).1).2, ∀ wd1 : World E,
        t.mInternalFunction = none ∧ Task.dtor t wd1 = some wd1) ∧
      (∀ (cleaner invoke : Option Nat) (wd1 : World E),
        Task.dtor { mInternalFunction := none, mCleaner := cleaner, mInvoke := invoke } wd1
          = some wd1) := by
  rw [Task.moveChain_eq] at horder ⊢
  refine ⟨?_, ?_, ?_, ?_, ?_, ?_⟩
  · simp [Task.ctor, List.getD_eq_getElem?_getD]
  · rw [Task.destroyAll_one _ n order horder, Task.dtor_ctor]
  · simp [Task.ctor, List.getD_eq_getElem?_getD]
  · simp [Task.dtor, Task.ctor, cleanerBody, List.getD_eq_getElem?_getD]
  · intro t ht wd1
    rw [List.eq_of_mem_replicate ht]
    exact ⟨rfl, rfl⟩
  · intro cleaner invoke wd1
    cases cleaner <;> rfl

theorem C12_exactly_once_release_witness :
    ((Task.moveChain 2 (Task.ctor counted ⟨[], 0⟩).1).1 ::
        (Task.moveChain 2 (Task.ctor counted ⟨[], 0⟩).1).2).reverse.Perm
      ((Task.moveChain 2 (Task.ctor counted ⟨[], 0⟩).1).1 ::
        (Task.moveChain 2 (Task.ctor counted ⟨[], 0⟩).1).2) ∧
      (Task.destroyAll ((Task.moveChain 2 (Task.ctor counted ⟨[], 0⟩).1).1 ::
        (Task.moveChain 2 (Task.ctor counted ⟨[], 0⟩).1).2).reverse
          (Task.ctor counted ⟨[], 0⟩).2).map (fun wd1 => wd1.env) = some 1 :=
  ⟨List.reverse_perm _,
    by rw [(C12_exactly_once_release Nat counted ⟨[], 0⟩ 2 _ (List.reverse_perm _)).2.1]; rfl⟩

/-- C15: the emptiness test inside TryPop is redundant when calls run one at a time. In every
state reached from a fresh queue, whenever the sequence of the head slot equals head + 1 the
head differs from the tail, so TryPop with the test of IsEmpty() removed returns the same
result, the same output task and the same queue as TryPop, for every bound on the iterations
of the loop. -/
theorem C15_empty_test_redundant (w Size : Nat) (h : LegalSize w Size) (ops : List Op)
    (task : Task) :
    (((run w Size ops).queue.mHead + 1) % 2 ^ w
        = ((run w Size ops).queue.at_
            ((run w Size ops).queue.mHead &&& (run w Size ops).queue.mBufferMask)).Sequence →
      (run w Size ops).queue.mHead ≠ (run w Size ops).queue.mTail ∧
      LFQueue.IsEmpty (run w Size ops).queue = false) ∧
      TryPopNoEmptyCheck w (run w Size ops).queue task = TryPop w (run w Size ops).queue task ∧
      (∀ fuel : Nat,
        TryPopNoEmptyCheckLoop w (fuel + 1) (run w Size ops).queue task
            (run w Size ops).queue.mHead
          = TryPopLoop w (fuel + 1) (run w Size ops).queue task
            (run w Size ops).queue.mHead) := by
  have hs := inv_run h ops
  refine ⟨fun hseq => ?_, ?_, fun fuel => ?_⟩
  · have hne := head_readable_nonempty h hs hseq
    exact ⟨hne, by simp [LFQueue.IsEmpty, hne]⟩
  · rw [TryPopNoEmptyCheck_eq, TryPop_eq]
    by_cases hseq : ((run w Size ops).queue.mHead + 1) % 2 ^ w
        = ((run w Size ops).queue.at_
            ((run w Size ops).queue.mHead &&& (run w Size ops).queue.mBufferMask)).Sequence
    · rw [if_pos hseq, if_pos ⟨hseq, head_readable_nonempty h hs hseq⟩]
    · rw [if_neg hseq, if_neg (fun hc => hseq hc.1)]
  · rw [TryPopNoEmptyCheckLoop_fuel, TryPopLoop_fuel]
    by_cases hseq : ((run w Size ops).queue.mHead + 1) % 2 ^ w
        = ((run w Size ops).queue.at_
            ((run w Size ops).queue.mHead &&& (run w Size ops).queue.mBufferMask)).Sequence
    · rw [if_pos hseq, if_pos ⟨hseq, head_readable_nonempty h hs hseq⟩]
    · rw [if_neg hseq, if_neg (fun hc => hseq hc.1)]

theorem C15_empty_test_redundant_witness :
    LegalSize 64 4 ∧
      TryPopNoEmptyCheck 64 (run 64 4 [Op.push ⟨some 1, some 1, some 1⟩,
          Op.push ⟨some 2, some 1, some 1⟩, Op.pop Task.defaultCtor]).queue Task.defaultCtor
        = TryPop 64 (run 64 4 [Op.push ⟨some 1, some 1, some 1⟩,
          Op.push ⟨some 2, some 1, some 1⟩, Op.pop Task.defaultCtor]).queue Task.defaultCtor ∧
      TryPopNoEmptyCheck 64 (run 64 4 []).queue Task.defaultCtor
        = TryPop 64 (run 64 4 []).queue Task.defaultCtor :=
  ⟨by decide,
    (C15_empty_test_redundant 64 4 (by decide) _ _).2.1,
    (C15_empty_test_redundant 64 4 (by decide) _ _).2.1⟩

/-- C16: push transition and frame. A successful TryPush that reserved the tail position p
finds the sequence p in the slot p & mask and changes exactly three things: the tail goes from
p to p + 1, the slot stores the pushed task, and the sequence of the slot goes from p to p + 1
(sums of std::size_t, so modulo 2^w; p + 1 itself unless p = 2^w - 1). The head, the mask and
the task and sequence of every other slot are unchanged. -/
theorem C16_push_frame (w Size : Nat) (q : LFQueue Size) (task : Task)
    (hin : q.mTail &&& q.mBufferMask < q.mBuffer.length)
    (hok : (TryPush w q task).1 = true) :
    (q.at_ (q.mTail &&& q.mBufferMask)).Sequence = q.mTail ∧
      (TryPush w q task).2.1 =
        { q with
          mTail := (q.mTail + 1) % 2 ^ w,
          mBuffer := q.mBuffer.set (q.mTail &&& q.mBufferMask)
            { Task := task, Sequence := (q.mTail + 1) % 2 ^ w } } ∧
      (TryPush w q task).2.1.mTail = (q.mTail + 1) % 2 ^ w ∧
      (TryPush w q task).2.1.at_ (q.mTail &&& q.mBufferMask) =
        { Task := task,
          Sequence := ((q.at_ (q.mTail &&& q.mBufferMask)).Sequence + 1) % 2 ^ w } ∧
      (TryPush w q task).2.1.mHead = q.mHead ∧
      (TryPush w q task).2.1.mBufferMask = q.mBufferMask ∧
      (TryPush w q task).2.1.mBuffer.length = q.mBuffer.length ∧
      (∀ j, j ≠ q.mTail &&& q.mBufferMask → (TryPush w q task).2.1.at_ j = q.at_ j) ∧
      (q.mTail + 1 < 2 ^ w →
        (TryPush w q task).2.1.mTail = q.mTail + 1 ∧
        ((TryPush w q task).2.1.at_ (q.mTail &&& q.mBufferMask)).Sequence = q.mTail + 1) := by
  rw [TryPush_eq] at hok ⊢
  by_cases hseq : q.mTail = (q.at_ (q.mTail &&& q.mBufferMask)).Sequence
  · rw [if_pos hseq]
    have hat : (pushed w q task).at_ (q.mTail &&& q.mBufferMask)
        = { Task := task, Sequence := (q.mTail + 1) % 2 ^ w } := by
      simp only [pushed, at_]
      exact getD_set_self _ _ _ _ hin
    refine ⟨hseq.symm, rfl, rfl, ?_, rfl, rfl, ?_, ?_, ?_⟩
    · show (pushed w q task).at_ (q.mTail &&& q.mBufferMask) = _
      rw [hat, ← hseq]
    · show (pushed w q task).mBuffer.length = _
      simp [pushed]
    · intro j hj
      show (pushed w q task).at_ j = _
      simp only [pushed, at_]
      exact getD_set_ne _ _ _ _ _ (Ne.symm hj)
    · intro hlt
      refine ⟨Nat.mod_eq_of_lt hlt, ?_⟩
      show ((pushed w q task).at_ (q.mTail &&& q.mBufferMask)).Sequence = _
      rw [hat]
      exact Nat.mod_eq_of_lt hlt
  · rw [if_neg hseq] at hok
    exact Bool.noConfusion hok

theorem C16_push_frame_witness :
    (ctor 4).mTail &&& (ctor 4).mBufferMask < (ctor 4).mBuffer.length ∧
      (TryPush 64 (ctor 4) ⟨some 7, some 1, some 1⟩).1 = true ∧
      (TryPush 64 (ctor 4) ⟨some 7, some 1, some 1⟩).2.1 =
        { ctor 4 with
          mTail := ((ctor 4).mTail + 1) % 2 ^ 64,
          mBuffer := (ctor 4).mBuffer.set ((ctor 4).mTail &&& (ctor 4).mBufferMask)
            { Task := ⟨some 7, some 1, some 1⟩,
              Sequence := ((ctor 4).mTail + 1) % 2 ^ 64 } } :=
  ⟨by decide, by decide,
    (C16_push_frame 64 4 (ctor 4) ⟨some 7, some 1, some 1⟩ (by decide) (by decide)).2.1⟩

/-- C17: pop transition and frame. A successful TryPop that reserved the head position p
changes exactly these things: the head goes from p to p + 1, the output task receives the task
stored in the slot p & mask, the task stored in that slot becomes empty (null state pointer),
and the sequence of that slot becomes p + Size (sums of std::size_t, so modulo 2^w), which is
the value the test of TryPush requires at the tail position p + Size, a position of the same
slot. The tail, the mask and the task and sequence of every other slot are unchanged. -/
theorem C17_pop_frame (w Size : Nat) (h : LegalSize w Size) (q : LFQueue Size) (task : Task)
    (hmask : q.mBufferMask = Size - 1) (hlen : q.mBuffer.length = Size)
    (hok : (TryPop w q task).1 = true) :
    (q.at_ (q.mHead &&& q.mBufferMask)).Sequence = (q.mHead + 1) % 2 ^ w ∧
      (TryPop w q task).2.1 =
        { q with
          mHead := (q.mHead + 1) % 2 ^ w,
          mBuffer := q.mBuffer.set (q.mHead &&& q.mBufferMask)
            { Task := { mInternalFunction := none, mCleaner := none, mInvoke := none },
              Sequence := (q.mHead + Size) % 2 ^ w } } ∧
      (TryPop w q task).2.2 = (q.at_ (q.mHead &&& q.mBufferMask)).Task ∧
      (TryPop w q task).2.1.mHead = (q.mHead + 1) % 2 ^ w ∧
      ((TryPop w q task).2.1.at_ (q.mHead &&& q.mBufferMask)).Task.mInternalFunction = none ∧
      ((TryPop w q task).2.1.at_ (q.mHead &&& q.mBufferMask)).Sequence
        = (q.mHead + Size) % 2 ^ w ∧
      (TryPop w q task).2.1.mTail = q.mTail ∧
      (TryPop w q task).2.1.mBufferMask = q.mBufferMask ∧
      (TryPop w q task).2.1.mBuffer.length = q.mBuffer.length ∧
      (∀ j, j ≠ q.mHead &&& q.mBufferMask → (TryPop w q task).2.1.at_ j = q.at_ j) ∧
      (((q.mHead + Size) % 2 ^ w) &&& q.mBufferMask = q.mHead &&& q.mBufferMask ∧
        ((TryPop w q task).2.1.at_ (((q.mHead + Size) % 2 ^ w) &&& q.mBufferMask)).Sequence
          = (q.mHead + Size) % 2 ^ w ∧
        ∀ next : Task,
          (TryPush w
            ({ mBufferMask := (TryPop w q task).2.1.mBufferMask,
               mHead := (TryPop w q task).2.1.mHead,
               mTail := (q.mHead + Size) % 2 ^ w,
               mBuffer := (TryPop w q task).2.1.mBuffer } : LFQueue Size) next).1 = true) ∧
      (q.mHead + Size < 2 ^ w →
        (TryPop w q task).2.1.mHead = q.mHead + 1 ∧
        ((TryPop w q task).2.1.at_ (q.mHead &&& q.mBufferMask)).Sequence
          = q.mHead + Size) := by
  have hSize : 2 < Size := h.1
  have hin : q.mHead &&& q.mBufferMask < q.mBuffer.length := by
    rw [hmask, hlen, h.mask]
    exact Nat.mod_lt _ (by omega)
  have hidx : ((q.mHead + Size) % 2 ^ w) &&& q.mBufferMask = q.mHead &&& q.mBufferMask := by
    rw [hmask]
    exact h.index_add_size _
  rw [TryPop_eq] at hok ⊢
  by_cases hc : (q.mHead + 1) % 2 ^ w = (q.at_ (q.mHead &&& q.mBufferMask)).Sequence
      ∧ q.mHead ≠ q.mTail
  · rw [if_pos hc]
    have hat : (popped w q).at_ (q.mHead &&& q.mBufferMask)
        = { Task := Task.defaultCtor, Sequence := (q.mHead + Size) % 2 ^ w } := by
      simp only [popped, at_]
      exact getD_set_self _ _ _ _ hin
    refine ⟨hc.1.symm, rfl, rfl, rfl, ?_, ?_, rfl, rfl, ?_, ?_, ⟨hidx, ?_, ?_⟩, ?_⟩
    · show ((popped w q).at_ (q.mHead &&& q.mBufferMask)).Task.mInternalFunction = none
      rw [hat]
      rfl
    · show ((popped w q).at_ (q.mHead &&& q.mBufferMask)).Sequence = _
      rw [hat]
    · show (popped w q).mBuffer.length = _
      simp [popped]
    · intro j hj
      show (popped w q).at_ j = _
      simp only [popped, at_]
      exact getD_set_ne _ _ _ _ _ (Ne.symm hj)
    · show ((popped w q).at_ (((q.mHead + Size) % 2 ^ w) &&& q.mBufferMask)).Sequence = _
      rw [hidx, hat]
    · intro next
      rw [TryPush_eq]
      have hseq : (q.mHead + Size) % 2 ^ w
          = ((popped w q).at_ (((q.mHead + Size) % 2 ^ w) &&& q.mBufferMask)).Sequence := by
        rw [hidx, hat]
      rw [if_pos (by exact hseq)]
    · intro hlt
      refine ⟨Nat.mod_eq_of_lt (by omega), ?_⟩
      show ((popped w q).at_ (q.mHead &&& q.mBufferMask)).Sequence = _
      rw [hat]
      exact Nat.mod_eq_of_lt hlt
  · rw [if_neg hc] at hok
    exact Bool.noConfusion hok

theorem C17_pop_frame_witness :
    LegalSize 64 4 ∧
      (run 64 4 [Op.push ⟨some 7, some 1, some 1⟩]).queue.mBufferMask = 4 - 1 ∧
      (run 64 4 [Op.push ⟨some 7, some 1, some 1⟩]).queue.mBuffer.length = 4 ∧
      (TryPop 64 (run 64 4 [Op.push ⟨some 7, some 1, some 1⟩]).queue
        Task.defaultCtor).1 = true ∧
      (TryPop 64 (run 64 4 [Op.push ⟨some 7, some 1, some 1⟩]).queue Task.defaultCtor).2.2
        = ((run 64 4 [Op.push ⟨some 7, some 1, some 1⟩]).queue.at_
            ((run 64 4 [Op.push ⟨some 7, some 1, some 1⟩]).queue.mHead
              &&& (run 64 4 [Op.push ⟨some 7, some 1, some 1⟩]).queue.mBufferMask)).Task :=
  ⟨by decide, by decide, by decide, by decide,
    (C17_pop_frame 64 4 (by decide) _ Task.defaultCtor (by decide) (by decide)
      (by decide)).2.2.1⟩

/-- C14, as stated, fails across the overflow of the counters: after 2^64 - 1 rounds of one
push and one pop and one more push on a queue of capacity 4 with a 64-bit std::size_t, the
head is 2^64 - 1 and the tail has wrapped to 0, so head <= tail does not hold although one
task is held. -/
theorem C14_head_le_tail_fails :
    LegalSize 64 4 ∧
      (run 64 4 overflowRun).queue.mHead = 18446744073709551615 ∧
      (run 64 4 overflowRun).queue.mTail = 0 ∧
      ¬ ((run 64 4 overflowRun).queue.mHead ≤ (run 64 4 overflowRun).queue.mTail) := by
  have hl : LegalSize 64 4 := by decide
  obtain ⟨e1, e2⟩ := rounds_then_push hl ⟨some 0, some 0, some 0⟩ 18446744073709551615
  have h1 : (run 64 4 overflowRun).queue.mHead = 18446744073709551615 := by
    unfold overflowRun
    rw [e1]
    norm_num
  have h2 : (run 64 4 overflowRun).queue.mTail = 0 := by
    unfold overflowRun
    rw [e2]
    norm_num
  refine ⟨hl, h1, h2, ?_⟩
  rw [h1, h2]
  norm_num

/-- C14, amended: in every state reached by calls run one at a time from a fresh queue of legal
capacity Size, let H and T be the numbers of successful pops and pushes. The head and the tail
are H and T modulo 2^w, and H <= T <= H + Size. Every position p with H <= p < T has its slot
p & mask with sequence p + 1 modulo 2^w, and every position p with T <= p < H + Size has its
slot with sequence p modulo 2^w. So every slot is the slot of one position p of
H, ..., H + Size - 1 and its sequence is p or p + 1 modulo 2^w, and the slot of a consumed
position not yet written again has the sequence of that position plus Size. While
H + Size < 2^w all of this holds for the head, the tail and the sequences themselves. -/
theorem C14_slot_sequence (w Size : Nat) (h : LegalSize w Size) (ops : List Op)
    (s : Trace Size) (hs : s = run w Size ops) :
    s.queue.mHead = s.delivered.length % 2 ^ w ∧
      s.queue.mTail = s.accepted.length % 2 ^ w ∧
      s.delivered.length ≤ s.accepted.length ∧
      s.accepted.length ≤ s.delivered.length + Size ∧
      (∀ p, s.delivered.length ≤ p → p < s.accepted.length →
        (s.queue.at_ (p &&& s.queue.mBufferMask)).Sequence = (p + 1) % 2 ^ w) ∧
      (∀ p, s.accepted.length ≤ p → p < s.delivered.length + Size →
        (s.queue.at_ (p &&& s.queue.mBufferMask)).Sequence = p % 2 ^ w) ∧
      (∀ i, i < Size → ∃ p, s.delivered.length ≤ p ∧ p < s.delivered.length + Size ∧
        p &&& s.queue.mBufferMask = i ∧
        ((s.queue.at_ i).Sequence = p % 2 ^ w ∨ (s.queue.at_ i).Sequence = (p + 1) % 2 ^ w)) ∧
      (∀ p, p < s.delivered.length → s.accepted.length ≤ p + Size →
        (s.queue.at_ (p &&& s.queue.mBufferMask)).Sequence = (p + Size) % 2 ^ w) ∧
      (s.delivered.length + Size < 2 ^ w →
        s.queue.mHead ≤ s.queue.mTail ∧ s.queue.mTail ≤ s.queue.mHead + Size ∧
        (∀ p, s.queue.mHead ≤ p → p < s.queue.mTail →
          (s.queue.at_ (p &&& s.queue.mBufferMask)).Sequence = p + 1) ∧
        (∀ p, s.queue.mTail ≤ p → p < s.queue.mHead + Size →
          (s.queue.at_ (p &&& s.queue.mBufferMask)).Sequence = p)) := by
  subst hs
  have hs := inv_run h ops
  have hSize : 2 < Size := h.1
  have hle := hs.le
  have hcap := hs.cap
  have hrd : ∀ p, (run w Size ops).delivered.length ≤ p →
      p < (run w Size ops).accepted.length →
      ((run w Size ops).queue.at_ (p &&& (run w Size ops).queue.mBufferMask)).Sequence
        = (p + 1) % 2 ^ w := by
    intro p h1 h2
    rw [hs.mask, h.mask, hs.readable p h1 h2]
  have hwr : ∀ p, (run w Size ops).accepted.length ≤ p →
      p < (run w Size ops).delivered.length + Size →
      ((run w Size ops).queue.at_ (p &&& (run w Size ops).queue.mBufferMask)).Sequence
        = p % 2 ^ w := by
    intro p h1 h2
    rw [hs.mask, h.mask, hs.writable p h1 h2]
  refine ⟨hs.head, hs.tail, hle, hcap, hrd, hwr, ?_, ?_, ?_⟩
  · intro i hi
    obtain ⟨p, hp1, hp2, hp3⟩ := slot_position (by omega) (run w Size ops).delivered.length i hi
    have hidx : p &&& (run w Size ops).queue.mBufferMask = i := by
      rw [hs.mask, h.mask, hp3]
    refine ⟨p, hp1, hp2, hidx, ?_⟩
    by_cases hpa : p < (run w Size ops).accepted.length
    · right
      rw [← hidx]
      exact hrd p hp1 hpa
    · left
      rw [← hidx]
      exact hwr p (by omega) hp2
  · intro p hp1 hp2
    have := hwr (p + Size) hp2 (by omega)
    rw [hs.mask, h.mask, Nat.add_mod_right] at this
    rw [hs.mask, h.mask]
    exact this
  · intro hnw
    have hH : (run w Size ops).queue.mHead = (run w Size ops).delivered.length := by
      rw [hs.head]
      exact Nat.mod_eq_of_lt (by omega)
    have hT : (run w Size ops).queue.mTail = (run w Size ops).accepted.length := by
      rw [hs.tail]
      exact Nat.mod_eq_of_lt (by omega)
    rw [hH, hT]
    refine ⟨hle, hcap, ?_, ?_⟩
    · intro p h1 h2
      rw [hrd p h1 h2]
      exact Nat.mod_eq_of_lt (by omega)
    · intro p h1 h2
      rw [hwr p h1 h2]
      exact Nat.mod_eq_of_lt (by omega)

theorem C14_slot_sequence_witness :
    LegalSize 64 4 ∧
      (run 64 4 [Op.push ⟨some 1, some 1, some 1⟩, Op.push ⟨some 2, some 1, some 1⟩,
          Op.pop Task.defaultCtor]).delivered.length + 4 < 2 ^ 64 ∧
      ((run 64 4 [Op.push ⟨some 1, some 1, some 1⟩, Op.push ⟨some 2, some 1, some 1⟩,
          Op.pop Task.defaultCtor]).queue.mHead
        ≤ (run 64 4 [Op.push ⟨some 1, some 1, some 1⟩, Op.push ⟨some 2, some 1, some 1⟩,
          Op.pop Task.defaultCtor]).queue.mTail ∧
        (run 64 4 [Op.push ⟨some 1, some 1, some 1⟩, Op.push ⟨some 2, some 1, some 1⟩,
          Op.pop Task.defaultCtor]).queue.mTail
        ≤ (run 64 4 [Op.push ⟨some 1, some 1, some 1⟩, Op.push ⟨some 2, some 1, some 1⟩,
          Op.pop Task.defaultCtor]).queue.mHead + 4) :=
  ⟨by decide, by decide,
    ((C14_slot_sequence 64 4 (by decide) _ _ rfl).2.2.2.2.2.2.2.2 (by decide)).1,
    ((C14_slot_sequence 64 4 (by decide) _ _ rfl).2.2.2.2.2.2.2.2 (by decide)).2.1⟩

/-- C20, the code at a failing input: a task `a` constructed from a callable f is overwritten by
move assignment from a task `b` constructed from g. The assignment takes no part of the world,
so no cleanup runs: afterwards `a` holds the state of g, `b` holds nothing, the state of f is
still allocated and no task points to it; destroying both tasks releases the state of g only
and leaves the state of f allocated, its destructor never run. With two callables whose
destructors count their runs, the count after destroying both tasks is 1. -/
theorem C20_move_assign_no_cleanup (E : Type) (f g : Callable E) (wd : World E) :
    (Task.ctor f wd).1.mInternalFunction = some wd.heap.length ∧
      (Task.moveAssign (Task.ctor f wd).1 (Task.ctor g (Task.ctor f wd).2).1).1
        = (Task.ctor g (Task.ctor f wd).2).1 ∧
      (Task.moveAssign (Task.ctor f wd).1
        (Task.ctor g (Task.ctor f wd).2).1).1.mInternalFunction = some (wd.heap.length + 1) ∧
      (Task.moveAssign (Task.ctor f wd).1
        (Task.ctor g (Task.ctor f wd).2).1).2.mInternalFunction = none ∧
      (Task.ctor g (Task.ctor f wd).2).2.heap.getD wd.heap.length none = some f ∧
      (∃ wd1, Task.destroyAll
          [(Task.moveAssign (Task.ctor f wd).1 (Task.ctor g (Task.ctor f wd).2).1).1,
           (Task.moveAssign (Task.ctor f wd).1 (Task.ctor g (Task.ctor f wd).2).1).2]
          (Task.ctor g (Task.ctor f wd).2).2 = some wd1 ∧
        wd1.heap.getD wd.heap.length none = some f ∧
        wd1.heap.getD (wd.heap.length + 1) none = none ∧
        wd1.env = g.destroy g.state wd.env) ∧
      (Task.destroyAll
          [(Task.moveAssign (Task.ctor counted ⟨[], 0⟩).1
              (Task.ctor counted (Task.ctor counted ⟨[], 0⟩).2).1).1,
           (Task.moveAssign (Task.ctor counted ⟨[], 0⟩).1
              (Task.ctor counted (Task.ctor counted ⟨[], 0⟩).2).1).2]
          (Task.ctor counted (Task.ctor counted ⟨[], 0⟩).2).2).map (fun wd1 => wd1.env)
        = some 1 := by
  rw [Task.moveAssign_eq]
  refine ⟨rfl, rfl, ?_, rfl, ?_, ?_, rfl⟩
  · simp [Task.ctor]
  · simp [Task.ctor, List.getD_eq_getElem?_getD, List.getElem_append_right]
  · refine ⟨⟨List.set (Task.ctor g (Task.ctor f wd).2).2.heap (Task.ctor f wd).2.heap.length
        none, g.destroy g.state (Task.ctor f wd).2.env⟩, ?_, ?_, ?_, ?_⟩
    · simp only [Task.destroyAll, Task.dtor_ctor, Task.dtor_default]
    · simp [Task.ctor, List.getD_eq_getElem?_getD, List.getElem?_set, List.getElem?_append,
        List.getElem_append_right]
    · simp [Task.ctor, List.getD_eq_getElem?_getD, List.getElem?_set,
        List.getElem_append_right]
    · rfl

/-- C21: task invariant. After construction from a callable the task has a state pointer to
the new object and both thunks bound, to the thunks created for the type of that object; a
move construction and a move assignment hand this on to the destination and leave a source with
a null state pointer, for which nothing is required; so after every such operation every task
with a non-null state pointer has both thunks bound, to the thunks of the type of the state it
points to. Constructing further tasks and invoking tasks does not change this. -/
theorem C21_task_invariant (E : Type) (wd : World E) :
    (∀ f : Callable E,
      Task.Bound (Task.ctor f wd).2 (Task.ctor f wd).1 ∧
      (Task.ctor f wd).1.mInternalFunction = some wd.heap.length ∧
      (Task.ctor f wd).2.heap.getD wd.heap.length none = some f ∧
      (Task.ctor f wd).1.mCleaner = some f.typeId ∧
      (Task.ctor f wd).1.mInvoke = some f.typeId) ∧
      (∀ other : Task, Task.Bound wd other →
        Task.Bound wd (Task.moveCtor other).1 ∧ Task.Bound wd (Task.moveCtor other).2) ∧
      (∀ self other : Task, Task.Bound wd other →
        Task.Bound wd (Task.moveAssign self other).1 ∧
        Task.Bound wd (Task.moveAssign self other).2) ∧
      (∀ cleaner invoke : Option Nat,
        Task.Bound wd { mInternalFunction := none, mCleaner := cleaner, mInvoke := invoke }) ∧
      (∀ (t : Task) (g : Callable E), Task.Bound wd t → Task.Bound (Task.ctor g wd).2 t) ∧
      (∀ t u : Task, Task.Bound wd t → Task.Bound (u.invoke wd).2 t) := by
  refine ⟨fun f => ⟨Task.bound_ctor f wd, rfl, ?_, rfl, rfl⟩, ?_, ?_, Task.bound_null wd,
    fun t g ht => Task.bound_grow wd t g ht, fun t u ht => Task.bound_invoke wd t u ht⟩
  · simp [Task.ctor, List.getD_eq_getElem?_getD]
  · intro other ho
    rw [Task.moveCtor_eq]
    exact ⟨ho, Task.bound_null wd none none⟩
  · intro self other ho
    rw [Task.moveAssign_eq]
    exact ⟨ho, Task.bound_null wd none none⟩

theorem C21_task_invariant_witness :
    Task.Bound (Task.ctor counted ⟨[], 0⟩).2 (Task.ctor counted ⟨[], 0⟩).1 ∧
      Task.Bound (Task.ctor counted ⟨[], 0⟩).2
        (Task.moveAssign ⟨none, none, none⟩
          (Task.moveCtor (Task.ctor counted ⟨[], 0⟩).1).1).1 ∧
      Task.Bound (Task.ctor counted ⟨[], 0⟩).2
        (Task.moveAssign ⟨none, none, none⟩
          (Task.moveCtor (Task.ctor counted ⟨[], 0⟩).1).1).2 :=
  ⟨((C21_task_invariant Nat ⟨[], 0⟩).1 counted).1,
    ((C21_task_invariant Nat (Task.ctor counted ⟨[], 0⟩).2).2.2.1 _ _
      ((C21_task_invariant Nat (Task.ctor counted ⟨[], 0⟩).2).2.1 _
        ((C21_task_invariant Nat ⟨[], 0⟩).1 counted).1).1).1,
    ((C21_task_invariant Nat (Task.ctor counted ⟨[], 0⟩).2).2.2.1 _ _
      ((C21_task_invariant Nat (Task.ctor counted ⟨[], 0⟩).2).2.1 _
        ((C21_task_invariant Nat ⟨[], 0⟩).1 counted).1).1).2⟩

/-- C22: a failure of the wrapped callable is reported only through the future. For every
callable f and arguments a such that f(a) throws e, the invocation of the task of
CreateTask(f, a) returns the status 0, no exception leaves it and its behaviour is defined, and
the future then holds the exception e and no value. -/
theorem C22_failure_through_future (A R : Type) (closureType : Nat) (f : A → Except Exn R)
    (a : A) (e : Exn) (hf : f a = Except.error e) (wd : World (SharedStates R)) :
    ∃ task fut wd1, CreateTask closureType f a wd = some ((task, fut), wd1) ∧
      (task.invoke wd1).1 = Outcome.returned 0 ∧
      (∀ x : Exn, (task.invoke wd1).1 ≠ Outcome.raised x) ∧
      (task.invoke wd1).1 ≠ Outcome.undefined ∧
      fut.get (task.invoke wd1).2.env = some (Except.error e) ∧
      (∀ v : R, fut.get (task.invoke wd1).2.env ≠ some (Except.ok v)) := by
  obtain ⟨task, fut, wd1, h1, _, h3, h4⟩ := CreateTask_invoke closureType f a wd
  refine ⟨task, fut, wd1, h1, h3, ?_, ?_, ?_, ?_⟩
  · intro x hx
    rw [h3] at hx
    exact Outcome.noConfusion hx
  · intro hx
    rw [h3] at hx
    exact Outcome.noConfusion hx
  · rw [h4, hf]
  · intro v hv
    rw [h4, hf] at hv
    exact Except.noConfusion (Option.some.inj hv)

theorem C22_failure_through_future_witness :
    thrower () = Except.error (Exn.user 1) ∧
      ∃ task fut wd1, CreateTask 0 thrower () ⟨[], []⟩ = some ((task, fut), wd1) ∧
        (task.invoke wd1).1 = Outcome.returned 0 ∧
        (∀ x : Exn, (task.invoke wd1).1 ≠ Outcome.raised x) ∧
        (task.invoke wd1).1 ≠ Outcome.undefined ∧
        fut.get (task.invoke wd1).2.env = some (Except.error (Exn.user 1)) ∧
        (∀ v : Int, fut.get (task.invoke wd1).2.env ≠ some (Except.ok v)) :=
  ⟨rfl, C22_failure_through_future Unit Int 0 thrower () (Exn.user 1) rfl ⟨[], []⟩⟩

/-- C23: when TryPop(out) returns false, the output task of the caller and the whole queue
(head, tail, mask, and the sequence and the task of every slot) are unchanged, for every queue
state and for every bound on the iterations of the loop. -/
theorem C23_pop_false_frame (w Size : Nat) (q : LFQueue Size) (task : Task)
    (hfalse : (TryPop w q task).1 = false) :
    (TryPop w q task).2.2 = task ∧
      (TryPop w q task).2.1 = q ∧
      (TryPop w q task).2.1.mHead = q.mHead ∧
      (TryPop w q task).2.1.mTail = q.mTail ∧
      (TryPop w q task).2.1.mBufferMask = q.mBufferMask ∧
      (TryPop w q task).2.1.mBuffer = q.mBuffer ∧
      (∀ i, (TryPop w q task).2.1.at_ i = q.at_ i) ∧
      (∀ fuel : Nat, TryPopLoop w (fuel + 1) q task q.mHead = some (false, q, task)) := by
  rw [TryPop_eq] at hfalse ⊢
  by_cases hc : (q.mHead + 1) % 2 ^ w = (q.at_ (q.mHead &&& q.mBufferMask)).Sequence
      ∧ q.mHead ≠ q.mTail
  · rw [if_pos hc] at hfalse
    exact Bool.noConfusion hfalse
  · rw [if_neg hc]
    refine ⟨rfl, rfl, rfl, rfl, rfl, rfl, fun _ => rfl, fun fuel => ?_⟩
    rw [TryPopLoop_fuel, if_neg hc]

theorem C23_pop_false_frame_witness :
    (TryPop 64 (ctor 4) ⟨some 7, some 1, some 1⟩).1 = false ∧
      (TryPop 64 (ctor 4) ⟨some 7, some 1, some 1⟩).2.2 = ⟨some 7, some 1, some 1⟩ ∧
      (TryPop 64 (ctor 4) ⟨some 7, some 1, some 1⟩).2.1 = ctor 4 :=
  ⟨by decide,
    (C23_pop_false_frame 64 4 (ctor 4) ⟨some 7, some 1, some 1⟩ (by decide)).1,
    (C23_pop_false_frame 64 4 (ctor 4) ⟨some 7, some 1, some 1⟩ (by decide)).2.1⟩

/-- C24: in every state reached by calls run one at a time from a fresh queue of legal
capacity, every slot whose position lies outside head, ..., tail - 1 stores a task with a null
state pointer. Hence the task that the move assignment of a successful TryPush overwrites
never holds an erased callable, and no accepted task is dropped by the queue: the tasks
accepted are the tasks handed out followed by the tasks still stored. -/
theorem C24_empty_outside (w Size : Nat) (h : LegalSize w Size) (ops : List Op)
    (s : Trace Size) (hs : s = run w Size ops) :
    (∀ p, s.accepted.length ≤ p → p < s.delivered.length + Size →
        (s.queue.at_ (p &&& s.queue.mBufferMask)).Task.mInternalFunction = none) ∧
      (∀ i, i < Size →
        (∀ k, k < (s.queue.mTail + 2 ^ w - s.queue.mHead) % 2 ^ w →
          ((s.queue.mHead + k) % 2 ^ w) &&& s.queue.mBufferMask ≠ i) →
        (s.queue.at_ i).Task.mInternalFunction = none) ∧
      (∀ task : Task, (TryPush w s.queue task).1 = true →
        (s.queue.at_ (s.queue.mTail &&& s.queue.mBufferMask)).Task.mInternalFunction = none ∧
        (Task.moveAssign (s.queue.at_ (s.queue.mTail &&& s.queue.mBufferMask)).Task task).1
          = task) ∧
      s.accepted = s.delivered ++ held w s.queue := by
  subst hs
  have hs := inv_run h ops
  have he := emptyOutside_run h ops
  have hSize : 2 < Size := h.1
  have hM : Size < 2 ^ w := h.2.2
  have hle := hs.le
  have hcap := hs.cap
  have houter : ∀ p, (run w Size ops).accepted.length ≤ p →
      p < (run w Size ops).delivered.length + Size →
      ((run w Size ops).queue.at_
        (p &&& (run w Size ops).queue.mBufferMask)).Task.mInternalFunction = none := by
    intro p h1 h2
    rw [hs.mask, h.mask]
    exact he p h1 h2
  refine ⟨houter, ?_, ?_, ?_⟩
  · intro i hi hout
    obtain ⟨p, hp1, hp2, hp3⟩ :=
      slot_position (by omega) (run w Size ops).delivered.length i hi
    have hn : ((run w Size ops).queue.mTail + 2 ^ w - (run w Size ops).queue.mHead) % 2 ^ w
        = (run w Size ops).accepted.length - (run w Size ops).delivered.length := by
      rw [hs.head, hs.tail]
      exact wrap_sub hle (by omega)
    by_cases hpa : p < (run w Size ops).accepted.length
    · exfalso
      apply hout (p - (run w Size ops).delivered.length) (by rw [hn]; omega)
      rw [hs.mask, hs.head, wrap_add, h.mask_wrap]
      have : (run w Size ops).delivered.length + (p - (run w Size ops).delivered.length)
          = p := by omega
      rw [this, hp3]
    · have := he p (by omega) hp2
      rw [hp3] at this
      exact this
  · intro task hok
    have hroom := (push_result h hs task).1 hok
    refine ⟨?_, ?_⟩
    · have := houter (run w Size ops).accepted.length (Nat.le_refl _) hroom
      rw [hs.mask, h.mask] at this
      rw [hs.mask, hs.tail, h.mask_wrap]
      exact this
    · rw [Task.moveAssign_eq]
  · rw [held_eq h hs]
    conv => lhs; rw [← List.take_append_drop (run w Size ops).delivered.length
      (run w Size ops).accepted]
    rw [← hs.fifo]

theorem C24_empty_outside_witness :
    LegalSize 64 4 ∧
      ((run 64 4 [Op.push ⟨some 1, some 1, some 1⟩, Op.push ⟨some 2, some 1, some 1⟩,
          Op.pop Task.defaultCtor]).queue.at_
        (4 &&& (run 64 4 [Op.push ⟨some 1, some 1, some 1⟩, Op.push ⟨some 2, some 1, some 1⟩,
          Op.pop Task.defaultCtor]).queue.mBufferMask)).Task.mInternalFunction = none ∧
      (TryPush 64 (run 64 4 [Op.push ⟨some 1, some 1, some 1⟩,
          Op.push ⟨some 2, some 1, some 1⟩, Op.pop Task.defaultCtor]).queue
        ⟨some 3, some 1, some 1⟩).1 = true ∧
      ((run 64 4 [Op.push ⟨some 1, some 1, some 1⟩, Op.push ⟨some 2, some 1, some 1⟩,
          Op.pop Task.defaultCtor]).queue.at_
        ((run 64 4 [Op.push ⟨some 1, some 1, some 1⟩, Op.push ⟨some 2, some 1, some 1⟩,
          Op.pop Task.defaultCtor]).queue.mTail
          &&& (run 64 4 [Op.push ⟨some 1, some 1, some 1⟩, Op.push ⟨some 2, some 1, some 1⟩,
            Op.pop Task.defaultCtor]).queue.mBufferMask)).Task.mInternalFunction = none :=
  ⟨by decide,
    (C24_empty_outside 64 4 (by decide) _ _ rfl).1 4 (by decide) (by decide),
    by decide,
    ((C24_empty_outside 64 4 (by decide) _ _ rfl).2.2.1 ⟨some 3, some 1, some 1⟩
      (by decide)).1⟩
